import Mathlib

/-!
Shallow embedding of the Kedi IPTV ingestion pipeline:
  - src/utils/m3uParser.ts           (in-process parser and classifier)
  - electron/helpers/m3u-to-json.cjs (standalone-process variant)
  - src/utils/seriesGrouping.ts      (series grouper)

Strings are modelled as lists of characters. JavaScript string primitives
(trim, toUpperCase, toLowerCase, includes, split, startsWith, parseInt,
String(int)) and the concrete regular expressions appearing in the source
are given explicit executable models. JS case mapping is modelled
character-wise on ASCII plus the Turkish letters occurring in the source;
all other characters map to themselves.
-/

set_option maxRecDepth 8000

namespace Kedi

def str (s : String) : List Char := s.data

/-- JS whitespace as used by trim and the regex class \s (ASCII portion). -/
def jsIsSpace (c : Char) : Bool := c = ' ' || c = '\t' || c = '\n' || c = '\r'

/-- Character-wise model of JS String.prototype.toUpperCase. -/
def jsToUpperChar (c : Char) : Char :=
  if 'a' ≤ c && c ≤ 'z' then Char.ofNat (c.toNat - 32)
  else if c = 'ı' then 'I'
  else if c = 'ğ' then 'Ğ'
  else if c = 'ü' then 'Ü'
  else if c = 'ş' then 'Ş'
  else if c = 'ö' then 'Ö'
  else if c = 'ç' then 'Ç'
  else c

/-- Character-wise model of JS String.prototype.toLowerCase. -/
def jsToLowerChar (c : Char) : Char :=
  if 'A' ≤ c && c ≤ 'Z' then Char.ofNat (c.toNat + 32)
  else if c = 'İ' then 'i'
  else if c = 'Ğ' then 'ğ'
  else if c = 'Ü' then 'ü'
  else if c = 'Ş' then 'ş'
  else if c = 'Ö' then 'ö'
  else if c = 'Ç' then 'ç'
  else c

def upperStr (l : List Char) : List Char := l.map jsToUpperChar

def lowerStr (l : List Char) : List Char := l.map jsToLowerChar

/-- First argument is a pattern, second a text: the text starts with the pattern. -/
def leadsWith : List Char → List Char → Bool
  | [], _ => true
  | _ :: _, [] => false
  | p :: ps, c :: cs => p = c && leadsWith ps cs

/-- Model of JS String.prototype.includes (substring containment). -/
def containsSeq : List Char → List Char → Bool
  | [], p => p.isEmpty
  | c :: r, p => leadsWith p (c :: r) || containsSeq r p

/-- Case-insensitive version of leadsWith (for regex /i alternatives). -/
def ciLeadsWith : List Char → List Char → Bool
  | [], _ => true
  | _ :: _, [] => false
  | p :: ps, c :: cs => jsToUpperChar p = jsToUpperChar c && ciLeadsWith ps cs

def isDigitChar (c : Char) : Bool := '0' ≤ c && c ≤ '9'

def isUpperAZ (c : Char) : Bool := 'A' ≤ c && c ≤ 'Z'

def isAsciiLetter (c : Char) : Bool := isUpperAZ c || ('a' ≤ c && c ≤ 'z')

def isUpperOrDigit (c : Char) : Bool := isUpperAZ c || isDigitChar c

def digitsToNat (l : List Char) : Nat := l.foldl (fun a c => 10 * a + (c.toNat - 48)) 0

def mkDigit (d : Nat) : Char :=
  if d = 0 then '0' else if d = 1 then '1' else if d = 2 then '2'
  else if d = 3 then '3' else if d = 4 then '4' else if d = 5 then '5'
  else if d = 6 then '6' else if d = 7 then '7' else if d = 8 then '8'
  else '9'

/-- Model of JS String(n) for a nonnegative integer: decimal digits, no
leading zeros.  Structured with explicit fuel so that it reduces in the
kernel; fuel n + 1 always suffices since n / 10 < n for n ≥ 10. -/
def natReprF : Nat → Nat → List Char
  | 0, _ => []
  | fuel + 1, n =>
    if n < 10 then [mkDigit n]
    else natReprF fuel (n / 10) ++ [mkDigit (n % 10)]

def natRepr (n : Nat) : List Char := natReprF (n + 1) n

def intRepr (i : Int) : List Char :=
  if i < 0 then '-' :: natRepr i.natAbs else natRepr i.natAbs

/-! JavaScript numbers.  parseInt and the numeric operations of the source
act on IEEE-754 binary64 doubles.  Every number these code paths produce is
integer-valued, NaN or an infinity, so a JS number is modelled by the sum
type below, an `int` carrying the exact integer value of the double; values
enter the type only through `doubleOfNat` (and negation), which performs the
binary64 round-to-nearest-even, so an `int v` always denotes a representable
double. -/

inductive JSNum where
  | nan : JSNum
  | posInf : JSNum
  | negInf : JSNum
  | int : Int → JSNum
deriving DecidableEq, Repr

/-- Number of binary digits of n (0 for n = 0), with explicit fuel so that
it reduces in the kernel; fuel n + 1 always suffices. -/
def bitLenF : Nat → Nat → Nat
  | 0, _ => 0
  | fuel + 1, n => if n = 0 then 0 else bitLenF fuel (n / 2) + 1

def bitLen (n : Nat) : Nat := bitLenF (n + 1) n

/-- Binary64 round-to-nearest, ties-to-even, of a natural number (ignoring
overflow): below 2^53 every integer is exactly representable; above, the
value keeps its top 53 binary digits and the cut-off remainder decides the
direction, a half-way remainder going to the even significand. -/
def roundNat (n : Nat) : Nat :=
  if n < 2 ^ 53 then n
  else if 2 ^ (bitLen n - 53 - 1) < n % 2 ^ (bitLen n - 53)
      ∨ (n % 2 ^ (bitLen n - 53) = 2 ^ (bitLen n - 53 - 1)
         ∧ (n / 2 ^ (bitLen n - 53)) % 2 = 1) then
    (n / 2 ^ (bitLen n - 53) + 1) * 2 ^ (bitLen n - 53)
  else (n / 2 ^ (bitLen n - 53)) * 2 ^ (bitLen n - 53)

/-- The double nearest to the natural number n: round-to-nearest-even, then
overflow to Infinity from 2^1024 on (the IEEE-754 overflow rule for values
whose unbounded rounding reaches 2^1024). -/
def doubleOfNat (n : Nat) : JSNum :=
  if 2 ^ 1024 ≤ roundNat n then JSNum.posInf else JSNum.int (roundNat n)

def jsNegate : JSNum → JSNum
  | JSNum.nan => JSNum.nan
  | JSNum.posInf => JSNum.negInf
  | JSNum.negInf => JSNum.posInf
  | JSNum.int v => JSNum.int (-v)

/-- Number of decimal digits of n (0 for n = 0), with explicit fuel. -/
def digits10F : Nat → Nat → Nat
  | 0, _ => 0
  | fuel + 1, n => if n = 0 then 0 else digits10F fuel (n / 10) + 1

def digits10 (n : Nat) : Nat := digits10F (n + 1) n

/-! ECMAScript Number::toString(10) for an integer-valued positive double of
exact value v: choose integers n, k, s with k ≥ 1, 10^(k-1) ≤ s < 10^k, the
Number value of s × 10^(n-k) equal to the double, and k as small as
possible; among several s the decimal closest to the double wins, between
two equally close the even s.  For an integer-valued double the optimum
always has n ≥ k (the exact digits of v are themselves a valid choice, and
k can never exceed the digit count of v), so only nonnegative powers
s·10^(n-k) are searched.  A decimal within rounding distance of the double
has the decimal length of v or one to either side, so n ranges over those
three values; and since every double is determined by at most 17 significant
digits, for k ≤ 17 the valid s at each n form an interval of width below
one, hence lie within one of v / 10^(n-k). -/

def validCand (v k n s : Nat) : Bool :=
  decide (10 ^ (k - 1) ≤ s) && decide (s < 10 ^ k) && decide (k ≤ n)
    && decide (roundNat (s * 10 ^ (n - k)) = v)

def candsFor (v k n : Nat) : List (Nat × Nat) :=
  (([v / 10 ^ (n - k) - 1, v / 10 ^ (n - k), v / 10 ^ (n - k) + 1].filter
    (fun s => validCand v k n s)).map (fun s => (s, n)))

def candList (v k : Nat) : List (Nat × Nat) :=
  candsFor v k (digits10 v - 1) ++ candsFor v k (digits10 v) ++ candsFor v k (digits10 v + 1)

/-- The ECMAScript tie-break among candidates of one digit count: closest
decimal first, then the even s. -/
def closerCand (v k : Nat) (p q : Nat × Nat) : Bool :=
  decide (Nat.dist (p.1 * 10 ^ (p.2 - k)) v < Nat.dist (q.1 * 10 ^ (q.2 - k)) v)
    || (decide (Nat.dist (p.1 * 10 ^ (p.2 - k)) v = Nat.dist (q.1 * 10 ^ (q.2 - k)) v)
        && decide (p.1 % 2 = 0))

def pickBest (v k : Nat) : List (Nat × Nat) → Option (Nat × Nat)
  | [] => none
  | p :: rest =>
    match pickBest v k rest with
    | none => some p
    | some q => some (if closerCand v k p q then p else q)

/-- Search for the smallest digit count k ≥ 1 admitting a valid candidate.
Every binary64 double is pinned down by 17 significant decimal digits, so
the search succeeds within k ≤ 17 and the fuel-exhaustion fallback (the
exact digits of v) is unreachable. -/
def kSearchAux (v : Nat) : Nat → Nat → Nat × Nat
  | _, 0 => (v, digits10 v)
  | k, fuel + 1 =>
    match pickBest v k (candList v k) with
    | some p => p
    | none => kSearchAux v (k + 1) fuel

def shortestDecimal (v : Nat) : Nat × Nat := kSearchAux v 1 17

def zeros (z : Nat) : List Char := List.replicate z '0'

/-- ECMAScript rendering of the chosen (s, n): plain digits padded with
n - k trailing zeros while n ≤ 21, exponent notation d.dd…e+(n-1) from
10^21 upward. -/
def renderSN (s n : Nat) : List Char :=
  if n ≤ 21 then natRepr s ++ zeros (n - digits10 s)
  else
    match natRepr s with
    | [] => []
    | d :: rest =>
      d :: (if rest.isEmpty then [] else '.' :: rest) ++ 'e' :: '+' :: natRepr (n - 1)

/-- JS String(d) for an integer-valued nonnegative double of exact value v. -/
def natNumToString (v : Nat) : List Char :=
  if v = 0 then ['0']
  else renderSN (shortestDecimal v).1 (shortestDecimal v).2

/-- JS String(d) for the doubles arising in this code base. -/
def jsNumToString : JSNum → List Char
  | JSNum.nan => str "NaN"
  | JSNum.posInf => str "Infinity"
  | JSNum.negInf => str "-Infinity"
  | JSNum.int v =>
    if v < 0 then '-' :: natNumToString v.natAbs else natNumToString v.natAbs

/-- Model of JS parseInt(s, 10): leading whitespace skipped, optional sign,
longest digit prefix; no digits give NaN, and the digit value is rounded to
the nearest double (collapsing from 16 significant digits on, Infinity from
the 309-digit range on). -/
def digitsVal (l : List Char) : Option Nat :=
  let ds := l.takeWhile isDigitChar
  if ds.isEmpty then none else some (digitsToNat ds)

def jsPosOfVal : Option Nat → JSNum
  | none => JSNum.nan
  | some m => doubleOfNat m

def jsParseIntCore : List Char → JSNum
  | [] => JSNum.nan
  | c :: rest =>
    if c = '-' then jsNegate (jsPosOfVal (digitsVal rest))
    else if c = '+' then jsPosOfVal (digitsVal rest)
    else jsPosOfVal (digitsVal (c :: rest))

def jsParseInt (s : List Char) : JSNum := jsParseIntCore (s.dropWhile jsIsSpace)

/-- JS `x || d` on an optional string field: null and the empty string are falsy. -/
def jsOrDefault (o : Option (List Char)) (d : List Char) : List Char :=
  match o with
  | none => d
  | some s => if s.isEmpty then d else s

/-! Regex models.  Each `...At` function attempts a match anchored at the head
of the list (returning the data the source extracts from the match), and the
corresponding `...Scan` function returns the leftmost match, scanning
position by position exactly as a JS regex engine does. -/

/-- Anchored match of S\d{2,}E\d{2,} (with optional case-insensitive S/E);
returns the two digit-group captures.  The greedy \d{2,} groups always
capture the full digit run, since a following E cannot be a digit. -/
def sdeAt (ci : Bool) (l : List Char) : Option (List Char × List Char) :=
  match l with
  | [] => none
  | c :: rest =>
    if c = 'S' || (ci && c = 's') then
      let r1 := rest.takeWhile isDigitChar
      if r1.length ≥ 2 then
        match rest.drop r1.length with
        | [] => none
        | e :: rest2 =>
          if e = 'E' || (ci && e = 'e') then
            let r2 := rest2.takeWhile isDigitChar
            if r2.length ≥ 2 then some (r1, r2) else none
          else none
      else none
    else none

def sdeScan (ci : Bool) : List Char → Option (List Char × List Char)
  | [] => none
  | c :: rest =>
    match sdeAt ci (c :: rest) with
    | some x => some x
    | none => sdeScan ci rest

/-- Anchored match of (open)([A-Z]{2,3})(close) with configurable delimiter
sets; returns the captured code.  The greedy {2,3} tries three letters first,
exactly as a backtracking regex engine does. -/
def codeAtWith (opens closes : List Char) (l : List Char) : Option (List Char) :=
  match l with
  | [] => none
  | o :: rest =>
    if opens.contains o then
      match rest with
      | a :: b :: tail =>
        if isUpperAZ a && isUpperAZ b then
          match tail with
          | c :: tail2 =>
            if isUpperAZ c then
              match tail2 with
              | d :: _ => if closes.contains d then some [a, b, c] else none
              | [] => none
            else if closes.contains c then some [a, b] else none
          | [] => none
        else none
      | _ => none
    else none

def codeScanWith (opens closes : List Char) : List Char → Option (List Char)
  | [] => none
  | c :: rest =>
    match codeAtWith opens closes (c :: rest) with
    | some x => some x
    | none => codeScanWith opens closes rest

/-- Test of /\[[A-Z]{2,3}\]/ . -/
def bracketTest (l : List Char) : Bool := (codeScanWith ['['] [']'] l).isSome

/-- Test of /\|[A-Z]{2,3}\|/ . -/
def pipeTest (l : List Char) : Bool := (codeScanWith ['|'] ['|'] l).isSome

/-- Anchored match of \(((19|20)\d{2})\); returns the four-digit capture. -/
def yearParenAt (l : List Char) : Option (List Char) :=
  match l with
  | p :: a :: b :: c :: d :: q :: _ =>
    if p = '(' && q = ')' && ((a = '1' && b = '9') || (a = '2' && b = '0'))
        && isDigitChar c && isDigitChar d then
      some [a, b, c, d]
    else none
  | _ => none

def yearParenScan : List Char → Option (List Char)
  | [] => none
  | c :: rest =>
    match yearParenAt (c :: rest) with
    | some x => some x
    | none => yearParenScan rest

/-- Anchored match of (202[0-9]); returns the four-digit capture. -/
def year202At (l : List Char) : Option (List Char) :=
  match l with
  | a :: b :: c :: d :: _ =>
    if a = '2' && b = '0' && c = '2' && isDigitChar d then some [a, b, c, d] else none
  | _ => none

def year202Scan : List Char → Option (List Char)
  | [] => none
  | c :: rest =>
    match year202At (c :: rest) with
    | some x => some x
    | none => year202Scan rest

/-! Models of the global regex replacements in extractName.  Each matcher
returns the length of the match anchored at the current position;
removeAll deletes every leftmost, non-overlapping match, resuming the
scan immediately after each match, as String.prototype.replace(re-g, '')
does.  None of the patterns can match the empty string. -/

def removeAllF (mAt : List Char → Option Nat) : Nat → List Char → List Char
  | _, [] => []
  | 0, l => l
  | fuel + 1, c :: rest =>
    match mAt (c :: rest) with
    | some (n + 1) => removeAllF mAt fuel (rest.drop n)
    | some 0 => c :: removeAllF mAt fuel rest
    | none => c :: removeAllF mAt fuel rest

def removeAll (mAt : List Char → Option Nat) (l : List Char) : List Char :=
  removeAllF mAt l.length l

/-- Matcher for /S\d{2,}E\d{2,}/gi . -/
def m1At (l : List Char) : Option Nat :=
  (sdeAt true l).map (fun p => 1 + p.1.length + 1 + p.2.length)

/-- Matcher for /\s*\((19|20)\d{2}\)\s*/g . -/
def m2At (l : List Char) : Option Nat :=
  let sp := l.takeWhile jsIsSpace
  let r := l.drop sp.length
  match yearParenAt r with
  | some _ => some (sp.length + 6 + ((r.drop 6).takeWhile jsIsSpace).length)
  | none => none

/-- Matcher for /\s*[\[|][A-Z0-9]+[\]|]\s*/g . -/
def m3At (l : List Char) : Option Nat :=
  let sp := l.takeWhile jsIsSpace
  let r := l.drop sp.length
  match r with
  | [] => none
  | o :: rest =>
    if o = '[' || o = '|' then
      let run := rest.takeWhile isUpperOrDigit
      if run.length ≥ 1 then
        match rest.drop run.length with
        | cl :: _ =>
          if cl = ']' || cl = '|' then
            some (sp.length + 1 + run.length + 1
              + ((rest.drop (run.length + 1)).takeWhile jsIsSpace).length)
          else none
        | [] => none
      else none
    else none

/-- Matcher for /\s*(4K|UHD|FHD|HD)\s*/gi ; the alternatives are tried in
source order. -/
def qualTokenLen (r : List Char) : Option Nat :=
  if ciLeadsWith (str "4K") r then some 2
  else if ciLeadsWith (str "UHD") r then some 3
  else if ciLeadsWith (str "FHD") r then some 3
  else if ciLeadsWith (str "HD") r then some 2
  else none

def m5At (l : List Char) : Option Nat :=
  let sp := l.takeWhile jsIsSpace
  let r := l.drop sp.length
  match qualTokenLen r with
  | some k => some (sp.length + k + ((r.drop k).takeWhile jsIsSpace).length)
  | none => none

/-- Model of \s*:\s* anchored at the head (the spaces before the colon can
only be the maximal run, since a shorter run would leave a space where the
colon is required). -/
def colonTail (l : List Char) : Option (List Char) :=
  match l.dropWhile jsIsSpace with
  | c :: r => if c = ':' then some (r.dropWhile jsIsSpace) else none
  | [] => none

/-- Model of .replace(/^[A-Z]{2,3}\s*:\s*/i, ''): anchored, applied once;
{2,3} greedily tries three letters first.  After three leading letters a
failed colon lookup cannot backtrack into a two-letter match, because the
character after the first two letters is a letter, not a colon or space. -/
def stripCountry (l : List Char) : List Char :=
  match l with
  | a :: b :: rest =>
    if isAsciiLetter a && isAsciiLetter b then
      match rest with
      | c :: rest2 =>
        if isAsciiLetter c then
          match colonTail rest2 with
          | some r => r
          | none => l
        else
          match colonTail (c :: rest2) with
          | some r => r
          | none => l
      | [] => l
    else l
  | _ => l

def trimJS (l : List Char) : List Char :=
  ((l.dropWhile jsIsSpace).reverse.dropWhile jsIsSpace).reverse

/-- Model of .replace(/\s+/g, ' '): every maximal whitespace run becomes a
single space (only the last character of a run emits). -/
def collapseWs : List Char → List Char
  | [] => []
  | c :: rest =>
    if jsIsSpace c then
      match rest with
      | d :: _ => if jsIsSpace d then collapseWs rest else ' ' :: collapseWs rest
      | [] => [' ']
    else c :: collapseWs rest

/-! The classifier functions of src/utils/m3uParser.ts. -/

def languageCodeMap : List (List Char × List Char) :=
  [(str "TR", str "tur"), (str "TUR", str "tur"), (str "TURKCE", str "tur"),
   (str "TURKIYE", str "tur"),
   (str "ALB", str "alb"), (str "AL", str "alb"),
   (str "AZ", str "aze"), (str "AZE", str "aze"),
   (str "DE", str "deu"), (str "DEU", str "deu"), (str "GER", str "deu"),
   (str "NL", str "dut"), (str "DUT", str "dut"), (str "NED", str "dut"),
   (str "EN", str "eng"), (str "ENG", str "eng"), (str "UK", str "eng"),
   (str "US", str "eng"), (str "USA", str "eng"),
   (str "FR", str "fra"), (str "FRA", str "fra"),
   (str "PT", str "por"), (str "POR", str "por")]

def lcLookup (code : List Char) : Option (List Char) :=
  (languageCodeMap.find? (fun p => p.1 == code)).map (fun p => p.2)

def turkceFallback (u : List Char) : Option (List Char) :=
  if containsSeq u (str "TURKCE") || containsSeq u (str "TURKIYE") then some (str "tur")
  else none

def detectLanguage (groupTitle : List Char) : Option (List Char) :=
  let u := upperStr groupTitle
  match codeScanWith ['[', '|'] [']', '|'] u with
  | some code =>
    match lcLookup code with
    | some lang => some lang
    | none => turkceFallback u
  | none => turkceFallback u

def detectMedia (groupTitle : List Char) : Option (List Char) :=
  let u := upperStr groupTitle
  if bracketTest u then some (str "Live")
  else if containsSeq u (str "RADIO") || containsSeq u (str "RADYO") then some (str "Live")
  else if pipeTest u then some (str "On Demand")
  else none

def detectType (groupTitle tvgName : List Char) : Option (List Char) :=
  let u := upperStr groupTitle
  let un := upperStr tvgName
  if (sdeScan false un).isSome then some (str "Series")
  else if containsSeq u (str "DIZI") || containsSeq u (str "SERIES") then some (str "Series")
  else if containsSeq u (str "FILM") || containsSeq u (str "MOVIE")
      || containsSeq u (str "CINEMA") || containsSeq u (str "BIOSCOOP") then some (str "Movie")
  else if containsSeq u (str "RADIO") || containsSeq u (str "RADYO") then some (str "Radio")
  else if bracketTest u then some (str "TV")
  else if pipeTest u then some (str "Movie")
  else none

/-- detectSeasonEpisode: String(parseInt(capture, 10)) on both captures of
the leftmost S(\d{2,})E(\d{2,}) match; parseInt rounds the digit value to
the nearest double and String re-renders that double. -/
def detectSeasonEpisode (tvgName : List Char) : Option (List Char) × Option (List Char) :=
  match sdeScan true tvgName with
  | some (g1, g2) =>
    (some (jsNumToString (doubleOfNat (digitsToNat g1))),
     some (jsNumToString (doubleOfNat (digitsToNat g2))))
  | none => (none, none)

def detectCategory (groupTitle : List Char) : Option (List Char) :=
  let u := upperStr groupTitle
  if containsSeq u (str "SPOR") then some (str "Sports")
  else if containsSeq u (str "SINEMA") || containsSeq u (str "FILM")
      || containsSeq u (str "CINEMA") || containsSeq u (str "BIOSCOOP")
      || containsSeq u (str "MOVIE") then some (str "Movies")
  else if containsSeq u (str "COCUK") || containsSeq u (str "KIDS")
      || containsSeq u (str "KINDER") || containsSeq u (str "ENFANT") then some (str "Kids")
  else if containsSeq u (str "HABER") || containsSeq u (str "NEWS") then some (str "News")
  else if containsSeq u (str "BELGESEL") || containsSeq u (str "DOCUMENTARE")
      || containsSeq u (str "DOCUMANTAIRE") then some (str "Documentary")
  else if containsSeq u (str "CLASSIC") then some (str "Classic")
  else if containsSeq u (str "RELAXATION") then some (str "Relaxation")
  else if containsSeq u (str "MUZIK") || containsSeq u (str "MUSIQUE")
      || containsSeq u (str "MUZIEK") then some (str "Music")
  else if containsSeq u (str "ADULT") then some (str "Adult")
  else if containsSeq u (str "DIL EGITIMI") || containsSeq u (str "DİL EĞİTİMİ") then
    some (str "Language Education")
  else none

def detectQuality (groupTitle : List Char) : Option (List Char) :=
  let u := upperStr groupTitle
  if containsSeq u (str "4K") then some (str "4K")
  else if containsSeq u (str "UHD") then some (str "UHD")
  else if containsSeq u (str "FHD") then some (str "FHD")
  else none

def detectPlatform (groupTitle : List Char) : Option (List Char) :=
  let lo := lowerStr groupTitle
  if containsSeq lo (str "amazon") then some (str "Amazon Prime")
  else if containsSeq lo (str "blu") then some (str "BluTV")
  else if containsSeq lo (str "disney") then some (str "Disney+")
  else if containsSeq lo (str "ex-xen") || containsSeq lo (str "exxen") then some (str "Exxen")
  else if containsSeq lo (str "gain") then some (str "GAİN")
  else if containsSeq lo (str "hbo") then some (str "HBO Max")
  else if containsSeq lo (str "netflix") || containsSeq lo (str "netfliix")
      || containsSeq lo (str "netfilix") then some (str "Netflix")
  else if containsSeq lo (str "paramount-plus") then some (str "Paramount Plus")
  else if containsSeq lo (str "tabii") then some (str "Tabii")
  else if containsSeq lo (str "yesilcam") then some (str "Yeşilçam")
  else if containsSeq lo (str "apple") then some (str "Apple TV")
  else none

def detectYear (groupTitle tvgName : List Char) : Option (List Char) :=
  match yearParenScan tvgName with
  | some y => some y
  | none => year202Scan groupTitle

def extractName (tvgName : List Char) : Option (List Char) :=
  let n1 := removeAll m1At tvgName
  let n2 := removeAll m2At n1
  let n3 := removeAll m3At n2
  let n4 := stripCountry n3
  let n5 := removeAll m5At n4
  let n6 := collapseWs (trimJS n5)
  if n6.isEmpty then none else some n6

/-! parseM3U of src/utils/m3uParser.ts. -/

structure ContentItem where
  id : ℚ
  name : Option (List Char)
  language : Option (List Char)
  media : Option (List Char)
  type : Option (List Char)
  category : Option (List Char)
  quality : Option (List Char)
  platform : Option (List Char)
  year : Option (List Char)
  season : Option (List Char)
  episode : Option (List Char)
  logo : Option (List Char)
  url : List Char
  source : List Char
deriving DecidableEq, Repr

/-- Model of the attribute regexes /key="([^"]*)"/ : leftmost occurrence of
the literal prefix that is followed by a closing quote; the capture is the
quote-free span. -/
def attrScan (key : List Char) : List Char → Option (List Char)
  | [] => none
  | c :: rest =>
    if leadsWith key (c :: rest) then
      let after := (c :: rest).drop key.length
      if after.contains '"' then some (after.takeWhile (fun ch => ch ≠ '"'))
      else attrScan key rest
    else attrScan key rest

/-- Builds one record from a metadata line at (0-based) filtered-line index i
and its url line; id is (i / 2) + 1 computed in JS float (here exact
rational) arithmetic. -/
def buildItem (i : Nat) (line url : List Char) : ContentItem :=
  let groupTitle := (attrScan (str "group-title=\"") line).getD []
  let tvgName := (attrScan (str "tvg-name=\"") line).getD []
  let tvgLogo := attrScan (str "tvg-logo=\"") line
  let se := detectSeasonEpisode tvgName
  { id := mkRat (i + 2) 2
    name := extractName tvgName
    language := detectLanguage groupTitle
    media := detectMedia groupTitle
    type := detectType groupTitle tvgName
    category := detectCategory groupTitle
    quality := detectQuality groupTitle
    platform := detectPlatform groupTitle
    year := detectYear groupTitle tvgName
    season := se.1
    episode := se.2
    logo := tvgLogo
    url := url
    source := str "IPTV" }

def splitNewline : List Char → List (List Char)
  | [] => [[]]
  | c :: rest =>
    if c = '\n' then [] :: splitNewline rest
    else
      match splitNewline rest with
      | h :: t => (c :: h) :: t
      | [] => [[c]]

/-- The parse loop: a matching #EXTINF line consumes the following line as
its url (empty when there is none) and the index advances by two; any other
line advances by one. -/
def parseLoop : Nat → List (List Char) → List ContentItem
  | _, [] => []
  | i, [line] =>
    if leadsWith (str "#EXTINF:") line then [buildItem i line []] else []
  | i, line :: next :: rest =>
    if leadsWith (str "#EXTINF:") line then
      buildItem i line next :: parseLoop (i + 2) rest
    else parseLoop (i + 1) (next :: rest)

def parseM3U (content : List Char) : List ContentItem :=
  parseLoop 0 (((splitNewline content).map trimJS).filter (fun l => !l.isEmpty))

end Kedi

/-! The standalone-process variant electron/helpers/m3u-to-json.cjs.  Its
detectCategory (lines 221-241) is embedded separately from its own source;
the body is textually identical to the in-process one (the source files
differ only in the TypeScript type annotations of the signature). -/

namespace KediCjs

open Kedi

def detectCategory (groupTitle : List Char) : Option (List Char) :=
  let u := upperStr groupTitle
  if containsSeq u (str "SPOR") then some (str "Sports")
  else if containsSeq u (str "SINEMA") || containsSeq u (str "FILM")
      || containsSeq u (str "CINEMA") || containsSeq u (str "BIOSCOOP")
      || containsSeq u (str "MOVIE") then some (str "Movies")
  else if containsSeq u (str "COCUK") || containsSeq u (str "KIDS")
      || containsSeq u (str "KINDER") || containsSeq u (str "ENFANT") then some (str "Kids")
  else if containsSeq u (str "HABER") || containsSeq u (str "NEWS") then some (str "News")
  else if containsSeq u (str "BELGESEL") || containsSeq u (str "DOCUMENTARE")
      || containsSeq u (str "DOCUMANTAIRE") then some (str "Documentary")
  else if containsSeq u (str "CLASSIC") then some (str "Classic")
  else if containsSeq u (str "RELAXATION") then some (str "Relaxation")
  else if containsSeq u (str "MUZIK") || containsSeq u (str "MUSIQUE")
      || containsSeq u (str "MUZIEK") then some (str "Music")
  else if containsSeq u (str "ADULT") then some (str "Adult")
  else if containsSeq u (str "DIL EGITIMI") || containsSeq u (str "DİL EĞİTİMİ") then
    some (str "Language Education")
  else none

end KediCjs

/-! src/utils/seriesGrouping.ts.  JS Map is modelled as an association list
that preserves insertion order; Map.set on an existing key replaces the value
in place, otherwise appends.  JS Array.prototype.sort with a comparator c is
modelled as a stable sort placing a before b when c(a,b) ≤ 0; a comparator
evaluating to NaN is treated as 0 (ECMAScript SortCompare). -/

namespace Kedi

def mapGet {β : Type} (m : List (List Char × β)) (k : List Char) : Option β :=
  (m.find? (fun p => p.1 == k)).map (fun p => p.2)

def mapSet {β : Type} (m : List (List Char × β)) (k : List Char) (v : β) :
    List (List Char × β) :=
  match m with
  | [] => [(k, v)]
  | p :: rest => if p.1 = k then (k, v) :: rest else p :: mapSet rest k v

/-- Stable insertion: x goes in front of the first y with le x y.  Any
stable sort produces this result for a consistent comparator, and for the
episode comparator the NaN case makes le hold both ways (treated as equal),
matching ECMAScript SortCompare. -/
def insertLe {α : Type} (le : α → α → Bool) (x : α) : List α → List α
  | [] => [x]
  | y :: ys => if le x y then x :: y :: ys else y :: insertLe le x ys

def jsSortBy {α : Type} (le : α → α → Bool) : List α → List α
  | [] => []
  | x :: xs => insertLe le x (jsSortBy le xs)

structure GroupedSeries where
  representative : ContentItem
  allItems : List ContentItem
  seasons : List (List Char × List ContentItem)
deriving DecidableEq, Repr

/-- JS template-literal rendering of an optional string field:
`${null}` is "null". -/
def tmpl (o : Option (List Char)) : List Char :=
  match o with
  | none => str "null"
  | some s => s

/-- Letter-free injective rendering of the rational id for the non-series
key, standing in for JS number-to-string (which is likewise injective and
letter-free on numbers). -/
def ratStr (q : ℚ) : List Char :=
  if q.den = 1 then intRepr q.num else intRepr q.num ++ '/' :: natRepr q.den

/-- Key for a non-series item: type-id . -/
def nonSeriesKey (item : ContentItem) : List Char :=
  tmpl item.type ++ '-' :: ratStr item.id

/-- Key for a series item: name-(language or no-lang)-type . -/
def seriesKey (item : ContentItem) : List Char :=
  tmpl item.name ++ '-' :: jsOrDefault item.language (str "no-lang")
    ++ '-' :: tmpl item.type

/-- parseInt(field || "0"), where null and the empty string fall back to
"0"; the result is a double (NaN when no digit prefix exists). -/
def pSE (o : Option (List Char)) : JSNum := jsParseInt (jsOrDefault o (str "0"))

/-- JS > on numbers: false whenever either side is NaN; an infinity is
above (below) every other value, and not above itself. -/
def jsGT : JSNum → JSNum → Bool
  | JSNum.nan, _ => false
  | _, JSNum.nan => false
  | JSNum.int x, JSNum.int y => decide (y < x)
  | JSNum.posInf, JSNum.posInf => false
  | JSNum.posInf, _ => true
  | _, JSNum.posInf => false
  | JSNum.negInf, _ => false
  | JSNum.int _, JSNum.negInf => true

/-- JS === on numbers: NaN equals nothing, each infinity equals itself. -/
def jsEQnum : JSNum → JSNum → Bool
  | JSNum.int x, JSNum.int y => decide (x = y)
  | JSNum.posInf, JSNum.posInf => true
  | JSNum.negInf, JSNum.negInf => true
  | _, _ => false

/-- The representative-replacement test of groupSeriesByShow lines 46-54:
the candidate n replaces the current representative c when its season is
strictly newer, or seasons are equal and its episode is strictly newer. -/
def better (n c : ContentItem) : Bool :=
  jsGT (pSE n.season) (pSE c.season)
    || (jsEQnum (pSE n.season) (pSE c.season) && jsGT (pSE n.episode) (pSE c.episode))

/-- First pass of groupSeriesByShow: build the group map with representative
and allItems (seasons stay empty until the second pass). -/
def pass1Step (acc : List (List Char × GroupedSeries)) (item : ContentItem) :
    List (List Char × GroupedSeries) :=
  if item.type ≠ some (str "Series") then
    mapSet acc (nonSeriesKey item) ⟨item, [item], []⟩
  else
    match mapGet acc (seriesKey item) with
    | none => mapSet acc (seriesKey item) ⟨item, [item], []⟩
    | some g =>
      mapSet acc (seriesKey item)
        ⟨if better item g.representative then item else g.representative,
         g.allItems ++ [item], []⟩

def pass1 (acc : List (List Char × GroupedSeries)) :
    List ContentItem → List (List Char × GroupedSeries)
  | [] => acc
  | x :: xs => pass1 (pass1Step acc x) xs

/-- season || "unknown" (null and the empty string are falsy). -/
def seasonKeyOf (item : ContentItem) : List Char := jsOrDefault item.season (str "unknown")

def bucketAdd (m : List (List Char × List ContentItem)) (item : ContentItem) :
    List (List Char × List ContentItem) :=
  match mapGet m (seasonKeyOf item) with
  | none => mapSet m (seasonKeyOf item) [item]
  | some b => mapSet m (seasonKeyOf item) (b ++ [item])

def bucketize (m : List (List Char × List ContentItem)) :
    List ContentItem → List (List Char × List ContentItem)
  | [] => m
  | x :: xs => bucketize (bucketAdd m x) xs

/-- The descending comparator value b − a in JS doubles, read as "a may
precede b": true when the subtraction is ≤ 0 or NaN (ECMAScript SortCompare
treats a NaN comparator as 0).  A NaN operand, or two infinities of the
same sign (whose difference is NaN), give a tie. -/
def jsDescLe : JSNum → JSNum → Bool
  | JSNum.nan, _ => true
  | _, JSNum.nan => true
  | JSNum.int x, JSNum.int y => decide (y ≤ x)
  | JSNum.posInf, _ => true
  | _, JSNum.posInf => false
  | JSNum.negInf, JSNum.negInf => true
  | JSNum.negInf, JSNum.int _ => false
  | JSNum.int _, JSNum.negInf => true

/-- Comparator of the per-season episode sort (descending by
parseInt(episode || "0")). -/
def epLe (a b : ContentItem) : Bool := jsDescLe (pSE a.episode) (pSE b.episode)

/-- Second pass: bucket a group's items by season and sort each bucket. -/
def mkSeasons (items : List ContentItem) : List (List Char × List ContentItem) :=
  (bucketize [] items).map (fun p => (p.1, jsSortBy epLe p.2))

def groupSeriesByShow (items : List ContentItem) : List (List Char × GroupedSeries) :=
  (pass1 [] items).map (fun p =>
    (p.1, ⟨p.2.representative, p.2.allItems, mkSeasons p.2.allItems⟩))

/-- parseInt(season) || 0 of getSortedSeasons: NaN is falsy and collapses
to 0 (as does 0 itself, a no-op); infinite values are truthy and stay. -/
def seasonKeyNum (s : List Char) : JSNum :=
  match jsParseInt s with
  | JSNum.nan => JSNum.int 0
  | x => x

def seasonEntryLe (a b : List Char × List ContentItem) : Bool :=
  jsDescLe (seasonKeyNum a.1) (seasonKeyNum b.1)

def getSortedSeasons (g : GroupedSeries) : List (List Char × List ContentItem) :=
  jsSortBy seasonEntryLe g.seasons

/-- Fixture builder for concrete grouping inputs. -/
def plainItem (id : ℚ) (ty nm lang se ep : Option (List Char)) : ContentItem :=
  { id := id, name := nm, language := lang, media := none, type := ty,
    category := none, quality := none, platform := none, year := none,
    season := se, episode := ep, logo := none, url := [], source := str "IPTV" }

/-! Derived notions used by the claims. -/

def lookupD {β : Type} (m : List (List Char × List β)) (k : List Char) : List β :=
  (mapGet m k).getD []

def keysOf {β : Type} (m : List (List Char × β)) : List (List Char) := m.map Prod.fst

/-- The order on non-NaN JS numbers that double comparison implements
(false on any NaN operand). -/
def numLe : JSNum → JSNum → Bool
  | JSNum.int x, JSNum.int y => decide (x ≤ y)
  | JSNum.negInf, JSNum.negInf => true
  | JSNum.negInf, JSNum.int _ => true
  | JSNum.negInf, JSNum.posInf => true
  | JSNum.int _, JSNum.posInf => true
  | JSNum.posInf, JSNum.posInf => true
  | _, _ => false

def numLt : JSNum → JSNum → Bool
  | JSNum.int x, JSNum.int y => decide (x < y)
  | JSNum.negInf, JSNum.int _ => true
  | JSNum.negInf, JSNum.posInf => true
  | JSNum.int _, JSNum.posInf => true
  | _, _ => false

/-- A parsed value is numeric when it is not NaN.  parseInt(field || "0")
is numeric for every null field, every digit string of any length, and
every re-parsed rendering such as "1e+23" (whose digit prefix parses to 1);
only fields without any digit prefix, such as "Infinity", are excluded. -/
def numOk : JSNum → Bool
  | JSNum.nan => false
  | _ => true

def seOk (x : ContentItem) : Bool := numOk (pSE x.season) && numOk (pSE x.episode)

/-- Lexicographic comparison of parsed (season, episode) double pairs. -/
def pairLe (a b : ContentItem) : Prop :=
  numLt (pSE a.season) (pSE b.season) = true
    ∨ (pSE a.season = pSE b.season ∧ numLe (pSE a.episode) (pSE b.episode) = true)

def pairLt (a b : ContentItem) : Prop :=
  numLt (pSE a.season) (pSE b.season) = true
    ∨ (pSE a.season = pSE b.season ∧ numLt (pSE a.episode) (pSE b.episode) = true)

def pairEq (a b : ContentItem) : Prop :=
  pSE a.season = pSE b.season ∧ pSE a.episode = pSE b.episode

/-- The representative fold of groupSeriesByShow restricted to one group:
starting from the first item, each later item replaces the representative
exactly when `better` holds. -/
def repFold (r : ContentItem) : List ContentItem → ContentItem
  | [] => r
  | x :: xs => repFold (if better x r then x else r) xs

/-- A nonempty decimal digit string with no leading zero (except "0" itself). -/
def isCanonNat : List Char → Bool
  | [] => false
  | c :: rest => isDigitChar c && rest.all isDigitChar && (c ≠ '0' || rest.isEmpty)

/-! Spec-side definitions.  These restate classifier rules in the claims'
declarative terms (leftmost matching position, ordered rule table) and are
compared against the source embeddings. -/

/-- The delimited-code match attempted at position i of the uppercased
title: an opening bracket or pipe, a 2-3 letter code, a closing bracket or
pipe (the delimiters need not correspond). -/
def codeAtPos (u : List Char) (i : Nat) : Option (List Char) :=
  codeAtWith ['[', '|'] [']', '|'] (u.drop i)

/-- The leftmost position of u carrying a delimited code. -/
def firstCodeIdx (u : List Char) : Option Nat :=
  (List.range u.length).find? (fun i => (codeAtPos u i).isSome)

/-- Amended language rule: take the code at the leftmost position where an
opening [ or | is followed by a 2-3 letter code and a closing ] or |
(mismatched combinations included); a known code maps through the table,
otherwise - as when no code occurs at all - the TURKCE/TURKIYE fallback
applies. -/
def languageAmendedSpec (gt : List Char) : Option (List Char) :=
  let u := upperStr gt
  match firstCodeIdx u with
  | some i =>
    match codeAtPos u i with
    | some code =>
      match lcLookup code with
      | some lang => some lang
      | none => turkceFallback u
    | none => turkceFallback u
  | none => turkceFallback u

/-- The type rules of the spec, as an ordered first-match table. -/
def typeRuleList (gt tn : List Char) : List (Bool × List Char) :=
  let u := upperStr gt
  let un := upperStr tn
  [((sdeScan false un).isSome, str "Series"),
   (containsSeq u (str "DIZI") || containsSeq u (str "SERIES"), str "Series"),
   (containsSeq u (str "FILM") || containsSeq u (str "MOVIE")
     || containsSeq u (str "CINEMA") || containsSeq u (str "BIOSCOOP"), str "Movie"),
   (containsSeq u (str "RADIO") || containsSeq u (str "RADYO"), str "Radio"),
   (bracketTest u, str "TV"),
   (pipeTest u, str "Movie")]

/-- First rule whose test fires wins; no fall-through. -/
def typeSpec (gt tn : List Char) : Option (List Char) :=
  ((typeRuleList gt tn).find? (fun r => r.1)).map (fun r => r.2)

/-! Concrete inputs used by counterexamples and witnesses. -/

/-- A playlist whose #EXTM3U header shifts the metadata line to an odd
filtered-line index. -/
def headerExample : List Char := str "#EXTM3U\n#EXTINF:-1,X\nhttp://u"

/-- The Scenario C input of the spec. -/
def scenarioC : List Char :=
  str "#EXTINF:-1 group-title=\"SINEMA | NETFLIX | 4K | 2024\" tvg-name=\"The Great Movie (2023)\" tvg-logo=\"http://logo/x.jpg\",X\nhttp://example.com/m1"

/-- The Scenario D input of the spec. -/
def scenarioD : List Char := str "#EXTINF:-1,X"

/-- Two distinct series episodes with identical name, language, season and
episode (a tie for the maximum pair). -/
def tieA : ContentItem :=
  plainItem 1 (some (str "Series")) (some (str "A")) none (some (str "1")) (some (str "1"))

def tieB : ContentItem :=
  plainItem 2 (some (str "Series")) (some (str "A")) none (some (str "1")) (some (str "1"))

/-- The three-episode example of the spec: S1E1, S1E5, S2E1. -/
def e11 : ContentItem :=
  plainItem 1 (some (str "Series")) (some (str "A")) none (some (str "1")) (some (str "1"))

def e15 : ContentItem :=
  plainItem 2 (some (str "Series")) (some (str "A")) none (some (str "1")) (some (str "5"))

def e21 : ContentItem :=
  plainItem 3 (some (str "Series")) (some (str "A")) none (some (str "2")) (some (str "1"))

def c7content : List Char := str "#EXTINF:-1 tvg-name=\"Show S01E005\",X\nhttp://u"

def c7item : ContentItem :=
  (parseM3U c7content).head?.getD (plainItem 0 none none none none none)

/-- Grouping witness input: the three episodes plus a movie with no season. -/
def c9items : List ContentItem :=
  [e11, e15, e21, plainItem 9 (some (str "Movie")) (some (str "M")) none none none]

def c9key : List Char := seriesKey e11

def defaultGroup : GroupedSeries := ⟨plainItem 0 none none none none none, [], []⟩

def c9group : GroupedSeries := (mapGet (groupSeriesByShow c9items) c9key).getD defaultGroup

def c10key : List Char := nonSeriesKey (plainItem 9 (some (str "Movie")) (some (str "M")) none none none)

def c10group : GroupedSeries := (mapGet (groupSeriesByShow c9items) c10key).getD defaultGroup

end Kedi

namespace Kedi

/-- C1 counterexample: on a playlist with the canonical #EXTM3U header the
single record's id is 3/2 - produced at filtered-line index 1 as 1/2 + 1 -
which is neither the 1-based ordinal 1 nor an integer. -/
theorem c1_counterexample :
    (parseM3U headerExample).map ContentItem.id = [mkRat 3 2]
    ∧ (mkRat 3 2).den ≠ 1 ∧ mkRat 3 2 ≠ (1 : ℚ) := by decide

theorem buildItem_id (i : Nat) (line url : List Char) :
    (buildItem i line url).id = mkRat (i + 2) 2 := rfl

theorem mkRat_two_lt_mkRat_two {m n : Nat} (h : m < n) : mkRat m 2 < mkRat n 2 := by
  rw [Rat.mkRat_eq_div, Rat.mkRat_eq_div, div_lt_div_iff₀ (by norm_num) (by norm_num)]
  push_cast
  have hq : (m : ℚ) < n := by exact_mod_cast h
  linarith

theorem parseLoop_ids : ∀ (lines : List (List Char)) (i : Nat),
    ((parseLoop i lines).map ContentItem.id).Pairwise (· < ·)
    ∧ ∀ q ∈ (parseLoop i lines).map ContentItem.id, mkRat (i + 2) 2 ≤ q
  | [], i => by simp [parseLoop]
  | [line], i => by
    by_cases h : leadsWith (str "#EXTINF:") line
    · simp [parseLoop, h, buildItem_id]
    · simp [parseLoop, h]
  | line :: next :: rest, i => by
    have ih1 := parseLoop_ids rest (i + 2)
    have ih2 := parseLoop_ids (next :: rest) (i + 1)
    by_cases h : leadsWith (str "#EXTINF:") line
    · simp only [parseLoop, h, if_true, List.map_cons, buildItem_id]
      refine ⟨List.Pairwise.cons (fun q hq => ?_) ih1.1, fun q hq => ?_⟩
      · exact lt_of_lt_of_le (mkRat_two_lt_mkRat_two (by omega)) (ih1.2 q hq)
      · rcases List.mem_cons.mp hq with rfl | hq
        · exact le_refl _
        · exact le_trans (mkRat_two_lt_mkRat_two (by omega)).le (ih1.2 q hq)
    · simp only [parseLoop, h, if_false]
      exact ⟨ih2.1, fun q hq =>
        le_trans (mkRat_two_lt_mkRat_two (by omega)).le (ih2.2 q hq)⟩

/-- C1 amended: within one parse invocation the record ids are strictly
increasing in emission order - hence unique - but, being lineIndex/2 + 1 in
float arithmetic, they are in general neither integers nor the 1-based
ordinal of the entry. -/
theorem c1_theorem (content : List Char) :
    ((parseM3U content).map ContentItem.id).Pairwise (· < ·) :=
  (parseLoop_ids _ 0).1

/-- C2 counterexample: on the Scenario C input the single parsed record has
type null, not "Movie" - the group-title contains none of
FILM/MOVIE/CINEMA/BIOSCOOP and no pipe-delimited 2-3 letter code. -/
theorem c2_counterexample :
    (parseM3U scenarioC).map ContentItem.type = [none] := by decide

/-- C2 amended: the Scenario C input yields exactly one record with
category "Movies", quality "4K", platform "Netflix", year "2023" and name
"The Great Movie" as claimed, but with type null rather than "Movie". -/
theorem c2_theorem :
    parseM3U scenarioC
    = [{ id := 1, name := some (str "The Great Movie"), language := none,
         media := none, type := none, category := some (str "Movies"),
         quality := some (str "4K"), platform := some (str "Netflix"),
         year := some (str "2023"), season := none, episode := none,
         logo := some (str "http://logo/x.jpg"), url := str "http://example.com/m1",
         source := str "IPTV" }] := by decide

/-- C3 counterexample: two distinct episodes tied at the maximal
(season, episode) pair; the representative is whichever arrives first, so
the two input orders select different representatives. -/
theorem c3_counterexample :
    (mapGet (groupSeriesByShow [tieA, tieB]) (seriesKey tieA)).map
      GroupedSeries.representative = some tieA
    ∧ (mapGet (groupSeriesByShow [tieB, tieA]) (seriesKey tieA)).map
      GroupedSeries.representative = some tieB
    ∧ tieA ≠ tieB := by decide

/-- C4 amended: the two detectCategory implementations are textually
identical up to type annotations and agree on every group-title. -/
theorem c4_theorem (gt : List Char) : detectCategory gt = KediCjs.detectCategory gt := rfl

/-- C4 counterexample: no group-title distinguishes the two detectCategory
implementations, refuting the claimed divergence. -/
theorem c4_counterexample :
    ¬ ∃ gt : List Char, detectCategory gt ≠ KediCjs.detectCategory gt := by
  rintro ⟨gt, h⟩
  exact h rfl

/-- C5 counterexample: the delimiters of the matched code need not
correspond; "[TR|" - an opening bracket closed by a pipe - is accepted by
the table branch and yields tur, where the claim requires null. -/
theorem c5_counterexample : detectLanguage (str "[TR|") = some (str "tur") := by decide

/-- Position-by-position regex scanning returns the match at the leftmost
matching position. -/
theorem codeScanWith_eq_find (opens closes : List Char) : ∀ l : List Char,
    codeScanWith opens closes l
    = ((List.range l.length).find?
        (fun i => (codeAtWith opens closes (l.drop i)).isSome)).bind
        (fun i => codeAtWith opens closes (l.drop i))
  | [] => by simp [codeScanWith]
  | c :: rest => by
    have ih := codeScanWith_eq_find opens closes rest
    rw [codeScanWith]
    cases h0 : codeAtWith opens closes (c :: rest) with
    | some x =>
      simp [List.range_succ_eq_map, h0]
    | none =>
      rw [ih]
      simp only [List.length_cons, List.range_succ_eq_map, List.find?_cons,
        List.drop_zero, h0, Option.isSome_none, Bool.false_eq_true, if_false,
        List.find?_map]
      cases hf : (List.range rest.length).find?
          (fun i => (codeAtWith opens closes (rest.drop i)).isSome) with
      | none =>
        simp only [Function.comp_def, List.drop_succ_cons]
        rw [hf]
        rfl
      | some i =>
        simp only [Function.comp_def, List.drop_succ_cons]
        rw [hf]
        simp [List.drop_succ_cons]

/-- C5 amended: detectLanguage takes the code at the leftmost position of
the uppercased title where an opening [ or | is followed by a 2-3 letter
code and a closing ] or | - the delimiters need not correspond - maps a
known code through the fixed table, and otherwise (unknown code or no code)
falls back to the TURKCE/TURKIYE test for tur, else null. -/
theorem c5_theorem (gt : List Char) : detectLanguage gt = languageAmendedSpec gt := by
  simp only [detectLanguage, languageAmendedSpec, firstCodeIdx, codeAtPos]
  rw [codeScanWith_eq_find]
  cases hf : (List.range (upperStr gt).length).find?
      (fun i => (codeAtWith ['[', '|'] [']', '|'] ((upperStr gt).drop i)).isSome) with
  | none => rfl
  | some i =>
    simp only [Option.bind_some]
    have hsome : (codeAtWith ['[', '|'] [']', '|'] ((upperStr gt).drop i)).isSome := by
      have := List.find?_some hf
      simpa using this
    cases hc : codeAtWith ['[', '|'] [']', '|'] ((upperStr gt).drop i) with
    | none => rw [hc] at hsome; simp at hsome
    | some code => simp [hc]

/-- C6: detectType is exactly the first-match evaluation of the ordered
rule table - tvg-name S-E pattern, DIZI/SERIES, movie keywords,
RADIO/RADYO, bracket code, pipe code - with no fall-through. -/
theorem c6_theorem (gt tn : List Char) : detectType gt tn = typeSpec gt tn := by
  simp only [detectType, typeSpec, typeRuleList]
  by_cases h1 : (sdeScan false (upperStr tn)).isSome <;>
    by_cases h2 : (containsSeq (upperStr gt) (str "DIZI")
      || containsSeq (upperStr gt) (str "SERIES")) = true <;>
    by_cases h3 : (containsSeq (upperStr gt) (str "FILM")
      || containsSeq (upperStr gt) (str "MOVIE")
      || containsSeq (upperStr gt) (str "CINEMA")
      || containsSeq (upperStr gt) (str "BIOSCOOP")) = true <;>
    by_cases h4 : (containsSeq (upperStr gt) (str "RADIO")
      || containsSeq (upperStr gt) (str "RADYO")) = true <;>
    by_cases h5 : bracketTest (upperStr gt) <;>
    by_cases h6 : pipeTest (upperStr gt) <;>
    simp [h1, h2, h3, h4, h5, h6, List.find?]

theorem isDigitChar_mkDigit (d : Nat) : isDigitChar (mkDigit d) = true := by
  unfold mkDigit
  split_ifs <;> decide

theorem mkDigit_ne_zero (d : Nat) (hd : 1 ≤ d) : mkDigit d ≠ '0' := by
  unfold mkDigit
  split_ifs <;> first | omega | decide

theorem natReprF_facts : ∀ fuel n : Nat, n < fuel →
    natReprF fuel n ≠ [] ∧ (natReprF fuel n).all isDigitChar = true
    ∧ (1 ≤ n → (natReprF fuel n).head? ≠ some '0')
  | 0, n, h => absurd h (by omega)
  | fuel + 1, n, h => by
    rw [natReprF]
    by_cases h10 : n < 10
    · simp only [h10, if_true]
      refine ⟨by simp, by simp [isDigitChar_mkDigit], fun h1 => ?_⟩
      simp only [List.head?_cons, ne_eq, Option.some.injEq]
      exact mkDigit_ne_zero n h1
    · have hlt : n / 10 < fuel := by
        have := Nat.div_lt_self (by omega : 0 < n) (by omega : 1 < 10)
        omega
      have ih := natReprF_facts fuel (n / 10) hlt
      simp only [h10, if_false]
      obtain ⟨a, as, hcons⟩ := List.exists_cons_of_ne_nil ih.1
      refine ⟨by simp, ?_, fun _ => ?_⟩
      · rw [List.all_append]
        simp [ih.2.1, isDigitChar_mkDigit]
      · have hge : 1 ≤ n / 10 := by omega
        have hh := ih.2.2 hge
        rw [hcons] at hh ⊢
        simpa using hh

theorem isCanonNat_natRepr (n : Nat) : isCanonNat (natRepr n) = true := by
  by_cases h0 : n = 0
  · subst h0; decide
  · have hf := natReprF_facts (n + 1) n (by omega)
    obtain ⟨a, as, hcons⟩ := List.exists_cons_of_ne_nil hf.1
    show isCanonNat (natReprF (n + 1) n) = true
    rw [hcons]
    rw [hcons] at hf
    have hall := hf.2.1
    have hhd := hf.2.2 (by omega)
    simp only [List.all_cons, Bool.and_eq_true] at hall
    simp only [List.head?_cons, ne_eq, Option.some.injEq] at hhd
    simp [isCanonNat, hall.1, hall.2, hhd]

/-! Arithmetic facts about the binary64 rounding and the ECMAScript
number-to-string search, establishing that below 2^53 - where every integer
is an exactly representable double whose shortest round-trip decimal is its
own digit string - the rendering is the exact decimal without leading
zeros. -/

theorem bitLenF_congr : ∀ (f1 n f2 : Nat), n < f1 → n < f2 →
    bitLenF f1 n = bitLenF f2 n
  | 0, _, _, h1, _ => absurd h1 (by omega)
  | _ + 1, _, 0, _, h2 => absurd h2 (by omega)
  | f1 + 1, n, f2 + 1, h1, h2 => by
    rw [bitLenF, bitLenF]
    by_cases h0 : n = 0
    · simp [h0]
    · have hd : n / 2 < n := Nat.div_lt_self (by omega) (by omega)
      rw [if_neg h0, if_neg h0, bitLenF_congr f1 (n / 2) f2 (by omega) (by omega)]

theorem bitLenF_bounds : ∀ (f n : Nat), n < f → 1 ≤ n →
    2 ^ (bitLenF f n - 1) ≤ n ∧ n < 2 ^ bitLenF f n
  | 0, _, h, _ => absurd h (by omega)
  | f + 1, n, h, h1 => by
    rw [bitLenF, if_neg (by omega : ¬ n = 0)]
    by_cases h2 : n / 2 = 0
    · have hn1 : n = 1 := by omega
      subst hn1
      have hz : bitLenF f (1 / 2) = 0 := by
        rw [show (1:Nat) / 2 = 0 from rfl]
        cases f <;> rfl
      rw [hz]
      decide
    · have hd : n / 2 < n := Nat.div_lt_self (by omega) (by omega)
      have hrec := bitLenF_bounds f (n / 2) (by omega) (by omega)
      have hb1 : 1 ≤ bitLenF f (n / 2) := by
        by_contra hb
        have hb0 : bitLenF f (n / 2) = 0 := by omega
        rw [hb0] at hrec
        have h00 := hrec.2
        simp at h00
        omega
      constructor
      · have h3 := hrec.1
        have h4 : (2:Nat) ^ (bitLenF f (n / 2) + 1 - 1)
            = 2 * 2 ^ (bitLenF f (n / 2) - 1) := by
          rw [← pow_succ']
          congr 1
          omega
        omega
      · have h5 := hrec.2
        have h6 : (2:Nat) ^ (bitLenF f (n / 2) + 1) = 2 * 2 ^ bitLenF f (n / 2) := by
          rw [pow_succ]
          ring
        omega

theorem bitLen_bounds (n : Nat) (h : 1 ≤ n) :
    2 ^ (bitLen n - 1) ≤ n ∧ n < 2 ^ bitLen n :=
  bitLenF_bounds (n + 1) n (by omega) h

theorem roundNat_id (n : Nat) (h : n < 2 ^ 53) : roundNat n = n := by
  rw [roundNat, if_pos h]

theorem roundNat_big (n : Nat) (h : 2 ^ 53 ≤ n) : 2 ^ 53 ≤ roundNat n := by
  have h1 : 1 ≤ n := by
    have hp : (0:Nat) < 2 ^ 53 := pow_pos (by omega) 53
    omega
  have hb := bitLen_bounds n h1
  have h54 : 54 ≤ bitLen n := by
    by_contra hc
    have hle : bitLen n ≤ 53 := by omega
    have : (2:Nat) ^ bitLen n ≤ 2 ^ 53 := Nat.pow_le_pow_right (by omega) hle
    omega
  have hsplit : (2:Nat) ^ (bitLen n - 1) = 2 ^ (bitLen n - 53) * 2 ^ 52 := by
    rw [← pow_add]
    congr 1
    omega
  have hq : 2 ^ 52 ≤ n / 2 ^ (bitLen n - 53) := by
    have hd : 2 ^ (bitLen n - 53) * 2 ^ 52 / 2 ^ (bitLen n - 53) = 2 ^ 52 :=
      Nat.mul_div_cancel_left _ (pow_pos (by omega) _)
    calc 2 ^ 52 = 2 ^ (bitLen n - 53) * 2 ^ 52 / 2 ^ (bitLen n - 53) := hd.symm
    _ ≤ n / 2 ^ (bitLen n - 53) := Nat.div_le_div_right (by omega)
  have hmul : 2 ^ 53 ≤ (n / 2 ^ (bitLen n - 53)) * 2 ^ (bitLen n - 53) := by
    have hm : 2 ^ 52 * 2 ^ (bitLen n - 53)
        ≤ (n / 2 ^ (bitLen n - 53)) * 2 ^ (bitLen n - 53) :=
      Nat.mul_le_mul_right _ hq
    have hp : (2:Nat) ^ 52 * 2 ^ (bitLen n - 53) = 2 ^ (52 + (bitLen n - 53)) := by
      rw [pow_add]
    have hp2 : (2:Nat) ^ 53 ≤ 2 ^ (52 + (bitLen n - 53)) :=
      Nat.pow_le_pow_right (by omega) (by omega)
    omega
  rw [roundNat, if_neg (by omega)]
  split_ifs with hcase
  · have hstep : (n / 2 ^ (bitLen n - 53)) * 2 ^ (bitLen n - 53)
        ≤ (n / 2 ^ (bitLen n - 53) + 1) * 2 ^ (bitLen n - 53) :=
      Nat.mul_le_mul_right _ (by omega)
    omega
  · exact hmul

theorem roundNat_exact {x v : Nat} (hv : v < 2 ^ 53) (h : roundNat x = v) : x = v := by
  by_cases hx : x < 2 ^ 53
  · rw [roundNat_id x hx] at h
    exact h
  · have := roundNat_big x (by omega)
    omega

theorem digits10F_congr : ∀ (f1 n f2 : Nat), n < f1 → n < f2 →
    digits10F f1 n = digits10F f2 n
  | 0, _, _, h1, _ => absurd h1 (by omega)
  | _ + 1, _, 0, _, h2 => absurd h2 (by omega)
  | f1 + 1, n, f2 + 1, h1, h2 => by
    rw [digits10F, digits10F]
    by_cases h0 : n = 0
    · simp [h0]
    · have hd : n / 10 < n := Nat.div_lt_self (by omega) (by omega)
      rw [if_neg h0, if_neg h0, digits10F_congr f1 (n / 10) f2 (by omega) (by omega)]

theorem digits10F_bounds : ∀ (f n : Nat), n < f → 1 ≤ n →
    10 ^ (digits10F f n - 1) ≤ n ∧ n < 10 ^ digits10F f n
  | 0, _, h, _ => absurd h (by omega)
  | f + 1, n, h, h1 => by
    rw [digits10F, if_neg (by omega : ¬ n = 0)]
    by_cases h2 : n / 10 = 0
    · have hn : n < 10 := by omega
      have hz : digits10F f (n / 10) = 0 := by
        rw [h2]
        cases f <;> rfl
      rw [hz]
      exact ⟨by simpa using h1, by simpa using hn⟩
    · have hd : n / 10 < n := Nat.div_lt_self (by omega) (by omega)
      have hrec := digits10F_bounds f (n / 10) (by omega) (by omega)
      have hb1 : 1 ≤ digits10F f (n / 10) := by
        by_contra hb
        have hb0 : digits10F f (n / 10) = 0 := by omega
        rw [hb0] at hrec
        have h00 := hrec.2
        simp at h00
        omega
      constructor
      · have h3 := hrec.1
        have h4 : (10:Nat) ^ (digits10F f (n / 10) + 1 - 1)
            = 10 * 10 ^ (digits10F f (n / 10) - 1) := by
          rw [← pow_succ']
          congr 1
          omega
        omega
      · have h5 := hrec.2
        have h6 : (10:Nat) ^ (digits10F f (n / 10) + 1)
            = 10 * 10 ^ digits10F f (n / 10) := by
          rw [pow_succ]
          ring
        omega

theorem digits10_bounds (n : Nat) (h : 1 ≤ n) :
    10 ^ (digits10 n - 1) ≤ n ∧ n < 10 ^ digits10 n :=
  digits10F_bounds (n + 1) n (by omega) h

theorem digits10_pos (n : Nat) (h : 1 ≤ n) : 1 ≤ digits10 n := by
  by_contra hb
  have hb0 : digits10 n = 0 := by omega
  have h2 := (digits10_bounds n h).2
  rw [hb0] at h2
  simp at h2
  omega

theorem digits10_mul10 (m : Nat) (h : 1 ≤ m) : digits10 (m * 10) = digits10 m + 1 := by
  show digits10F (m * 10 + 1) (m * 10) = digits10F (m + 1) m + 1
  rw [digits10F, if_neg (by omega : ¬ m * 10 = 0)]
  have h10 : m * 10 / 10 = m := by omega
  rw [h10, digits10F_congr (m * 10) m (m + 1) (by omega) (by omega)]

theorem digits10_mul_pow10 (c : Nat) (hc : 1 ≤ c) :
    ∀ z : Nat, digits10 (c * 10 ^ z) = digits10 c + z
  | 0 => by simp
  | z + 1 => by
    have hcz : 1 ≤ c * 10 ^ z := Nat.mul_pos hc (pow_pos (by omega) z)
    have he : c * 10 ^ (z + 1) = c * 10 ^ z * 10 := by ring
    rw [he, digits10_mul10 _ hcz, digits10_mul_pow10 c hc z]
    omega

theorem natReprF_congr : ∀ (f1 n f2 : Nat), n < f1 → n < f2 →
    natReprF f1 n = natReprF f2 n
  | 0, _, _, h1, _ => absurd h1 (by omega)
  | _ + 1, _, 0, _, h2 => absurd h2 (by omega)
  | f1 + 1, n, f2 + 1, h1, h2 => by
    rw [natReprF, natReprF]
    by_cases h10 : n < 10
    · simp [h10]
    · have hd : n / 10 < n := Nat.div_lt_self (by omega) (by omega)
      rw [if_neg h10, if_neg h10, natReprF_congr f1 (n / 10) f2 (by omega) (by omega)]

theorem natRepr_mul10 (m : Nat) (h : 1 ≤ m) : natRepr (m * 10) = natRepr m ++ ['0'] := by
  show natReprF (m * 10 + 1) (m * 10) = natReprF (m + 1) m ++ ['0']
  rw [natReprF, if_neg (by omega : ¬ m * 10 < 10)]
  have h10 : m * 10 / 10 = m := by omega
  have hm0 : m * 10 % 10 = 0 := by omega
  rw [h10, hm0, natReprF_congr (m * 10) m (m + 1) (by omega) (by omega)]
  rfl

theorem natRepr_mul_pow10 (c : Nat) (hc : 1 ≤ c) :
    ∀ z : Nat, natRepr (c * 10 ^ z) = natRepr c ++ zeros z
  | 0 => by simp [zeros]
  | z + 1 => by
    have hcz : 1 ≤ c * 10 ^ z := Nat.mul_pos hc (pow_pos (by omega) z)
    have he : c * 10 ^ (z + 1) = c * 10 ^ z * 10 := by ring
    rw [he, natRepr_mul10 _ hcz, natRepr_mul_pow10 c hc z, List.append_assoc]
    congr 1
    simp [zeros, List.replicate_succ']

theorem exists_strip : ∀ v : Nat, 1 ≤ v →
    ∃ c z : Nat, v = c * 10 ^ z ∧ ¬ (10 ∣ c) ∧ 1 ≤ c := by
  intro v
  induction v using Nat.strong_induction_on with
  | _ v ih =>
    intro hv
    by_cases hdvd : 10 ∣ v
    · obtain ⟨w, hw⟩ := hdvd
      have hw1 : 1 ≤ w := by omega
      have hwlt : w < v := by omega
      obtain ⟨c, z, hz1, hz2, hz3⟩ := ih w hwlt hw1
      refine ⟨c, z + 1, ?_, hz2, hz3⟩
      rw [hw, hz1]
      ring
    · exact ⟨v, 0, by ring, hdvd, hv⟩

theorem pow10_dvd_le {c z j : Nat} (hc : ¬ (10 ∣ c)) (h : (10:Nat) ^ j ∣ c * 10 ^ z) :
    j ≤ z := by
  by_contra hgt
  have hz1 : z + 1 ≤ j := by omega
  have h10 : (10:Nat) ^ (z + 1) ∣ c * 10 ^ z := dvd_trans (pow_dvd_pow 10 hz1) h
  obtain ⟨m, hm⟩ := h10
  have hzpos : (0:Nat) < 10 ^ z := pow_pos (by omega) z
  have hc10 : c = 10 * m := by
    have heq : c * 10 ^ z = 10 * m * 10 ^ z := by
      rw [hm]
      ring
    exact Nat.eq_of_mul_eq_mul_right hzpos heq
  exact hc ⟨m, hc10⟩

theorem validCand_iff {v k n s : Nat} :
    validCand v k n s = true
    ↔ 10 ^ (k - 1) ≤ s ∧ s < 10 ^ k ∧ k ≤ n ∧ roundNat (s * 10 ^ (n - k)) = v := by
  unfold validCand
  simp [Bool.and_eq_true, decide_eq_true_eq, and_assoc]

theorem mem_candsFor {v k n : Nat} {p : Nat × Nat} (hp : p ∈ candsFor v k n) :
    p.2 = n ∧ validCand v k n p.1 = true := by
  unfold candsFor at hp
  rcases List.mem_map.mp hp with ⟨s, hs, rfl⟩
  exact ⟨rfl, (List.mem_filter.mp hs).2⟩

theorem mem_candList {v k : Nat} {p : Nat × Nat} (hp : p ∈ candList v k) :
    validCand v k p.2 p.1 = true := by
  unfold candList at hp
  rcases List.mem_append.mp hp with h12 | h3
  · rcases List.mem_append.mp h12 with h1 | h2
    · obtain ⟨hh, hv2⟩ := mem_candsFor h1
      rw [hh]
      exact hv2
    · obtain ⟨hh, hv2⟩ := mem_candsFor h2
      rw [hh]
      exact hv2
  · obtain ⟨hh, hv2⟩ := mem_candsFor h3
    rw [hh]
    exact hv2

theorem candList_empty_small {v c z k : Nat} (hv : v < 2 ^ 53)
    (hvc : v = c * 10 ^ z) (hc10 : ¬ (10 ∣ c)) (hc1 : 1 ≤ c)
    (hk : k < digits10 c) : candList v k = [] := by
  rw [List.eq_nil_iff_forall_not_mem]
  intro p hp
  have hval := mem_candList hp
  rw [validCand_iff] at hval
  obtain ⟨hlo, hhi, hkn, hrnd⟩ := hval
  have hexact : p.1 * 10 ^ (p.2 - k) = v := roundNat_exact hv hrnd
  have hdvd : (10:Nat) ^ (p.2 - k) ∣ v := Dvd.intro_left _ hexact
  rw [hvc] at hdvd
  have hjz : p.2 - k ≤ z := pow10_dvd_le hc10 hdvd
  have hs : p.1 = c * 10 ^ (z - (p.2 - k)) := by
    refine Nat.eq_of_mul_eq_mul_right (pow_pos (by omega : (0:Nat) < 10) (p.2 - k)) ?_
    have hzz : z - (p.2 - k) + (p.2 - k) = z := by omega
    rw [hexact, hvc, mul_assoc, ← pow_add, hzz]
  have hcle : c ≤ p.1 := by
    rw [hs]
    have hp1 : (1:Nat) ≤ 10 ^ (z - (p.2 - k)) := Nat.one_le_pow _ _ (by omega)
    calc c = c * 1 := (mul_one c).symm
    _ ≤ c * 10 ^ (z - (p.2 - k)) := Nat.mul_le_mul_left c hp1
  have hclo : 10 ^ (digits10 c - 1) ≤ c := (digits10_bounds c hc1).1
  have hpow : (10:Nat) ^ k ≤ 10 ^ (digits10 c - 1) :=
    Nat.pow_le_pow_right (by omega) (by omega)
  omega

theorem candList_at_min {v c z : Nat} (hv : v < 2 ^ 53)
    (hvc : v = c * 10 ^ z) (hc10 : ¬ (10 ∣ c)) (hc1 : 1 ≤ c) :
    (∀ p ∈ candList v (digits10 c), p = (c, digits10 v))
    ∧ (c, digits10 v) ∈ candList v (digits10 c) := by
  have hk0 : 1 ≤ digits10 c := digits10_pos c hc1
  have hD : digits10 v = digits10 c + z := by
    rw [hvc]
    exact digits10_mul_pow10 c hc1 z
  have h10z : (0:Nat) < 10 ^ z := pow_pos (by omega) z
  have hv1 : 1 ≤ v := by
    rw [hvc]
    exact Nat.mul_pos hc1 h10z
  constructor
  · intro p hp
    have hval := mem_candList hp
    rw [validCand_iff] at hval
    obtain ⟨hlo, hhi, hkn, hrnd⟩ := hval
    have hexact : p.1 * 10 ^ (p.2 - digits10 c) = v := roundNat_exact hv hrnd
    have hdvd : (10:Nat) ^ (p.2 - digits10 c) ∣ v := Dvd.intro_left _ hexact
    rw [hvc] at hdvd
    have hjz : p.2 - digits10 c ≤ z := pow10_dvd_le hc10 hdvd
    have hs : p.1 = c * 10 ^ (z - (p.2 - digits10 c)) := by
      refine Nat.eq_of_mul_eq_mul_right
        (pow_pos (by omega : (0:Nat) < 10) (p.2 - digits10 c)) ?_
      have hzz : z - (p.2 - digits10 c) + (p.2 - digits10 c) = z := by omega
      rw [hexact, hvc, mul_assoc, ← pow_add, hzz]
    have hzj : z - (p.2 - digits10 c) = 0 := by
      by_contra hne
      have hz1 : 1 ≤ z - (p.2 - digits10 c) := by omega
      have h10le : (10:Nat) ≤ 10 ^ (z - (p.2 - digits10 c)) := by
        calc (10:Nat) = 10 ^ 1 := (pow_one 10).symm
        _ ≤ 10 ^ (z - (p.2 - digits10 c)) := Nat.pow_le_pow_right (by omega) hz1
      have hsge : 10 * c ≤ p.1 := by
        rw [hs]
        calc 10 * c = c * 10 := by ring
        _ ≤ c * 10 ^ (z - (p.2 - digits10 c)) := Nat.mul_le_mul_left c h10le
      have hclo : 10 ^ (digits10 c - 1) ≤ c := (digits10_bounds c hc1).1
      have hpk : (10:Nat) ^ digits10 c = 10 * 10 ^ (digits10 c - 1) := by
        rw [← pow_succ']
        congr 1
        omega
      omega
    have hps : p.1 = c := by
      rw [hs, hzj, pow_zero, mul_one]
    have hpn : p.2 = digits10 v := by omega
    have hpp : p = (p.1, p.2) := rfl
    rw [hpp, hps, hpn]
  · have hzz : digits10 v - digits10 c = z := by omega
    have hbase : v / 10 ^ (digits10 v - digits10 c) = c := by
      rw [hzz, hvc]
      exact Nat.mul_div_cancel _ h10z
    unfold candList
    refine List.mem_append.mpr (Or.inl (List.mem_append.mpr (Or.inr ?_)))
    unfold candsFor
    refine List.mem_map.mpr ⟨c, ?_, rfl⟩
    refine List.mem_filter.mpr ⟨?_, ?_⟩
    · rw [hbase]
      simp
    · rw [validCand_iff]
      refine ⟨(digits10_bounds c hc1).1, (digits10_bounds c hc1).2, by omega, ?_⟩
      rw [hzz, ← hvc]
      exact roundNat_id v hv

theorem pickBest_of_all_eq (v k : Nat) (a : Nat × Nat) :
    ∀ l : List (Nat × Nat), (∀ p ∈ l, p = a) →
      pickBest v k l = none ∨ pickBest v k l = some a
  | [], _ => Or.inl rfl
  | p :: rest, hall => by
    rw [pickBest]
    rcases pickBest_of_all_eq v k a rest (fun x hx => hall x (List.mem_cons_of_mem _ hx))
      with h | h
    · rw [h, hall p (List.mem_cons_self _ _)]
      right
      rfl
    · rw [h, hall p (List.mem_cons_self _ _)]
      right
      simp

theorem pickBest_ne_none (v k : Nat) (p : Nat × Nat) (l : List (Nat × Nat)) :
    pickBest v k (p :: l) ≠ none := by
  rw [pickBest]
  cases pickBest v k l <;> simp

theorem kSearchAux_reach (v k0 : Nat) (a : Nat × Nat)
    (hpick : pickBest v k0 (candList v k0) = some a)
    (hempty : ∀ k, k < k0 → candList v k = []) :
    ∀ (fuel k : Nat), k ≤ k0 → k0 < k + fuel → kSearchAux v k fuel = a
  | 0, _, hk, hlt => by omega
  | fuel + 1, k, hk, hlt => by
    rw [kSearchAux]
    by_cases heq : k = k0
    · subst heq
      rw [hpick]
    · rw [hempty k (by omega)]
      exact kSearchAux_reach v k0 a hpick hempty fuel (k + 1) (by omega) (by omega)

theorem natNumToString_small (v : Nat) (hv : v < 2 ^ 53) :
    natNumToString v = natRepr v := by
  by_cases h0 : v = 0
  · subst h0
    decide
  · have h1 : 1 ≤ v := by omega
    obtain ⟨c, z, hvc, hc10, hc1⟩ := exists_strip v h1
    have hk0 : 1 ≤ digits10 c := digits10_pos c hc1
    have hD : digits10 v = digits10 c + z := by
      rw [hvc]
      exact digits10_mul_pow10 c hc1 z
    obtain ⟨huniq, hmem⟩ := candList_at_min hv hvc hc10 hc1
    have hpick : pickBest v (digits10 c) (candList v (digits10 c))
        = some (c, digits10 v) := by
      rcases pickBest_of_all_eq v (digits10 c) (c, digits10 v) (candList v (digits10 c))
        huniq with h | h
      · exfalso
        cases hcl : candList v (digits10 c) with
        | nil =>
          rw [hcl] at hmem
          exact absurd hmem (List.not_mem_nil _)
        | cons q qs =>
          rw [hcl] at h
          exact pickBest_ne_none v (digits10 c) q qs h
      · exact h
    have hempty : ∀ k, k < digits10 c → candList v k = [] :=
      fun k hk => candList_empty_small hv hvc hc10 hc1 hk
    have hD16 : digits10 v ≤ 16 := by
      by_contra hc16
      have hlow := (digits10_bounds v h1).1
      have hp : (10:Nat) ^ 16 ≤ 10 ^ (digits10 v - 1) :=
        Nat.pow_le_pow_right (by omega) (by omega)
      have h2 : (2:Nat) ^ 53 < 10 ^ 16 := by norm_num
      omega
    have hks : kSearchAux v 1 17 = (c, digits10 v) :=
      kSearchAux_reach v (digits10 c) (c, digits10 v) hpick hempty 17 1 hk0 (by omega)
    show (if v = 0 then ['0']
      else renderSN (shortestDecimal v).1 (shortestDecimal v).2) = natRepr v
    rw [if_neg h0]
    unfold shortestDecimal
    rw [hks]
    show renderSN c (digits10 v) = natRepr v
    unfold renderSN
    rw [if_pos (by omega : digits10 v ≤ 21), hD]
    have hz2 : digits10 c + z - digits10 c = z := by omega
    rw [hz2, ← natRepr_mul_pow10 c hc1 z, ← hvc]

/-- String(parseInt(d)) of a digit value below 2^53: the double is exact
and the rendering is the exact decimal digit string. -/
theorem render_small (m : Nat) (hm : m < 2 ^ 53) :
    jsNumToString (doubleOfNat m) = natRepr m := by
  have hdd : doubleOfNat m = JSNum.int (m : Int) := by
    unfold doubleOfNat
    rw [roundNat_id m hm, if_neg ?_]
    have hp : (2:Nat) ^ 53 ≤ 2 ^ 1024 := Nat.pow_le_pow_right (by omega) (by omega)
    omega
  rw [hdd]
  show (if (m : Int) < 0 then '-' :: natNumToString (Int.natAbs m)
    else natNumToString (Int.natAbs m)) = natRepr m
  rw [if_neg (by omega), Int.natAbs_ofNat]
  exact natNumToString_small m hm

theorem dse_pairing (tn : List Char) :
    (detectSeasonEpisode tn).1 = none ↔ (detectSeasonEpisode tn).2 = none := by
  unfold detectSeasonEpisode
  cases h : sdeScan true tn with
  | none => simp
  | some p =>
    cases p
    simp

theorem buildItem_season (i : Nat) (line url : List Char) :
    (buildItem i line url).season
    = (detectSeasonEpisode ((attrScan (str "tvg-name=\"") line).getD [])).1 := rfl

theorem buildItem_episode (i : Nat) (line url : List Char) :
    (buildItem i line url).episode
    = (detectSeasonEpisode ((attrScan (str "tvg-name=\"") line).getD [])).2 := rfl

theorem parseLoop_mem : ∀ (lines : List (List Char)) (i : Nat) (item : ContentItem),
    item ∈ parseLoop i lines → ∃ j line url, item = buildItem j line url
  | [], _, _ => by simp [parseLoop]
  | [line], i, item => by
    by_cases h : leadsWith (str "#EXTINF:") line <;> simp only [parseLoop, h, if_true, if_false]
    · intro hm
      rw [List.mem_singleton] at hm
      exact ⟨i, line, [], hm⟩
    · simp
  | line :: next :: rest, i, item => by
    by_cases h : leadsWith (str "#EXTINF:") line <;> simp only [parseLoop, h, if_true, if_false]
    · intro hm
      rcases List.mem_cons.mp hm with rfl | hm
      · exact ⟨i, line, next, rfl⟩
      · exact parseLoop_mem rest (i + 2) item hm
    · exact parseLoop_mem (next :: rest) (i + 1) item

/-- C7 counterexample: the claimed "decimal integer strings with leading
zeros stripped" invariant fails - a 24-digit episode capture renders in
exponent notation as "1e+23" (the capture's value rounds to the double
1e23, printed in ECMAScript exponent form from 10^21 on), and a 16-digit
capture like 9007199254740993 = 2^53 + 1 is parsed to the rounded double
9007199254740992, not to the captured integer. -/
theorem c7_counterexample :
    detectSeasonEpisode (str "S01E100000000000000000000000")
      = (some (str "1"), some (str "1e+23"))
    ∧ isCanonNat (str "1e+23") = false
    ∧ detectSeasonEpisode (str "S01E9007199254740993")
      = (some (str "1"), some (str "9007199254740992")) := by
  refine ⟨?_, by decide, ?_⟩ <;> decide

/-- C7 amended: detectSeasonEpisode feeds both captures of the leftmost
case-insensitive S(\d{2,})E(\d{2,}) match through JS parseInt - which
rounds the digit value to the nearest double - and String; season and
episode are null exactly when there is no match (so season null iff
episode null on every parsed record), and for captures whose digit value
stays below 2^53 the stored value is exactly the capture rendered as a
decimal integer string with leading zeros stripped (S01E005 gives season
"1", episode "5"). -/
theorem c7_theorem :
    (∀ tn : List Char,
      ((detectSeasonEpisode tn).1 = none ↔ (detectSeasonEpisode tn).2 = none))
    ∧ (∀ (content : List Char) (item : ContentItem), item ∈ parseM3U content →
        (item.season = none ↔ item.episode = none))
    ∧ (∀ (tn : List Char) (g1 g2 : List Char), sdeScan true tn = some (g1, g2) →
        detectSeasonEpisode tn
        = (some (jsNumToString (doubleOfNat (digitsToNat g1))),
           some (jsNumToString (doubleOfNat (digitsToNat g2)))))
    ∧ (∀ m : Nat, m < 2 ^ 53 →
        jsNumToString (doubleOfNat m) = natRepr m ∧ isCanonNat (natRepr m) = true)
    ∧ detectSeasonEpisode (str "S01E005") = (some (str "1"), some (str "5")) := by
  refine ⟨dse_pairing, fun content item hm => ?_, fun tn g1 g2 h => ?_, fun m hm => ?_,
    by decide⟩
  · obtain ⟨j, line, url, rfl⟩ := parseLoop_mem _ 0 item hm
    rw [buildItem_season, buildItem_episode]
    exact dse_pairing _
  · unfold detectSeasonEpisode
    rw [h]
  · exact ⟨render_small m hm, isCanonNat_natRepr m⟩

theorem c7_witness :
    (c7item.season = none ↔ c7item.episode = none)
    ∧ jsNumToString (doubleOfNat 5) = natRepr 5 :=
  ⟨c7_theorem.2.1 c7content c7item (by decide), (c7_theorem.2.2.2.1 5 (by decide)).1⟩

/-- C8: the malformed Scenario D entry parses without failure into a single
record with empty url, null logo and every classified field null. -/
theorem c8_theorem :
    parseM3U scenarioD
    = [{ id := 1, name := none, language := none, media := none, type := none,
         category := none, quality := none, platform := none, year := none,
         season := none, episode := none, logo := none, url := [],
         source := str "IPTV" }] := by decide

/-! Association-list map lemmas. -/

theorem mapGet_mapSet_self {β : Type} (m : List (List Char × β)) (k : List Char) (v : β) :
    mapGet (mapSet m k v) k = some v := by
  induction m with
  | nil => simp [mapGet, mapSet]
  | cons p rest ih =>
    by_cases h : p.1 = k
    · simp [mapGet, mapSet, h]
    · simp only [mapSet, h, if_false]
      rw [mapGet, List.find?_cons_of_neg]
      · exact ih
      · simp [h]

theorem mapGet_mapSet_ne {β : Type} (m : List (List Char × β)) (k k2 : List Char) (v : β)
    (h : k ≠ k2) : mapGet (mapSet m k v) k2 = mapGet m k2 := by
  induction m with
  | nil =>
    rw [show mapSet ([] : List (List Char × β)) k v = [(k, v)] from rfl, mapGet,
      List.find?_cons_of_neg _ (by simp [h])]
    rfl
  | cons p rest ih =>
    by_cases hp : p.1 = k
    · simp only [mapSet, hp, if_true]
      rw [mapGet, List.find?_cons_of_neg _ (by simp [h]), mapGet,
        List.find?_cons_of_neg _ (by simp [hp, h])]
    · simp only [mapSet, hp, if_false]
      by_cases hp2 : p.1 = k2
      · rw [mapGet, List.find?_cons_of_pos _ (by simp [hp2]), mapGet,
          List.find?_cons_of_pos _ (by simp [hp2])]
      · rw [mapGet, List.find?_cons_of_neg _ (by simp [hp2]), mapGet,
          List.find?_cons_of_neg _ (by simp [hp2])]
        exact ih

theorem mem_mapSet {β : Type} (m : List (List Char × β)) (k : List Char) (v : β)
    (p : List Char × β) (hp : p ∈ mapSet m k v) : p ∈ m ∨ p = (k, v) := by
  induction m with
  | nil =>
    rw [show mapSet ([] : List (List Char × β)) k v = [(k, v)] from rfl] at hp
    right
    simpa using hp
  | cons q rest ih =>
    by_cases hq : q.1 = k
    · simp only [mapSet, hq, if_true] at hp
      rcases List.mem_cons.mp hp with rfl | hp
      · right; rfl
      · left; exact List.mem_cons_of_mem _ hp
    · simp only [mapSet, hq, if_false] at hp
      rcases List.mem_cons.mp hp with rfl | hp
      · left; exact List.mem_cons_self _ _
      · rcases ih hp with h | h
        · left; exact List.mem_cons_of_mem _ h
        · right; exact h

theorem mapGet_map {β γ : Type} (f : β → γ) (m : List (List Char × β)) (k : List Char) :
    mapGet (m.map (fun p => (p.1, f p.2))) k = (mapGet m k).map f := by
  induction m with
  | nil => simp [mapGet]
  | cons p rest ih =>
    by_cases hp : p.1 = k
    · rw [List.map_cons, mapGet, List.find?_cons_of_pos _ (by simp [hp]),
        mapGet, List.find?_cons_of_pos _ (by simp [hp])]
      rfl
    · rw [List.map_cons, mapGet, List.find?_cons_of_neg _ (by simp [hp]),
        mapGet, List.find?_cons_of_neg _ (by simp [hp])]
      exact ih

theorem mem_of_mapGet {β : Type} (m : List (List Char × β)) (k : List Char) (v : β)
    (h : mapGet m k = some v) : (k, v) ∈ m := by
  induction m with
  | nil => simp [mapGet] at h
  | cons p rest ih =>
    by_cases hp : p.1 = k
    · rw [mapGet, List.find?_cons_of_pos _ (by simp [hp])] at h
      simp at h
      have hkv : (k, v) = p := by
        rw [← hp, ← h]
      rw [hkv]
      exact List.mem_cons_self _ _
    · rw [mapGet, List.find?_cons_of_neg _ (by simp [hp])] at h
      exact List.mem_cons_of_mem _ (ih h)

theorem mapGet_of_mem_nodup {β : Type} (m : List (List Char × β)) (k : List Char) (v : β)
    (hnd : (keysOf m).Nodup) (hm : (k, v) ∈ m) : mapGet m k = some v := by
  induction m with
  | nil => simp at hm
  | cons p rest ih =>
    simp only [keysOf, List.map_cons, List.nodup_cons] at hnd
    rcases List.mem_cons.mp hm with rfl | hm
    · rw [mapGet, List.find?_cons_of_pos _ (by simp)]
      rfl
    · have hp : p.1 ≠ k := by
        intro hpk
        exact hnd.1 (hpk ▸ (List.mem_map.mpr ⟨(k, v), hm, rfl⟩))
      rw [mapGet, List.find?_cons_of_neg _ (by simp [hp])]
      exact ih hnd.2 hm

theorem keysOf_cons {β : Type} (p : List Char × β) (rest : List (List Char × β)) :
    keysOf (p :: rest) = p.1 :: keysOf rest := rfl

theorem mapGet_eq_none_iff {β : Type} (m : List (List Char × β)) (k : List Char) :
    mapGet m k = none ↔ k ∉ keysOf m := by
  induction m with
  | nil => simp [mapGet, keysOf]
  | cons p rest ih =>
    rw [keysOf_cons]
    by_cases hp : p.1 = k
    · rw [mapGet, List.find?_cons_of_pos _ (by simp [hp])]
      refine iff_of_false (by simp) (not_not_intro ?_)
      rw [hp]
      exact List.mem_cons_self _ _
    · rw [mapGet, List.find?_cons_of_neg _ (by simp [hp])]
      rw [show Option.map (fun p => p.2) (List.find? (fun p => p.1 == k) rest)
        = mapGet rest k from rfl, ih]
      constructor
      · intro h1 hk
        rcases List.mem_cons.mp hk with heq | hmem
        · exact hp heq.symm
        · exact h1 hmem
      · intro h1 hk
        exact h1 (List.mem_cons_of_mem _ hk)

theorem keysOf_mapSet_of_none {β : Type} (m : List (List Char × β)) (k : List Char) (v : β)
    (h : mapGet m k = none) : keysOf (mapSet m k v) = keysOf m ++ [k] := by
  induction m with
  | nil => simp [keysOf, mapSet]
  | cons p rest ih =>
    by_cases hp : p.1 = k
    · rw [mapGet, List.find?_cons_of_pos _ (by simp [hp])] at h
      simp at h
    · rw [mapGet, List.find?_cons_of_neg _ (by simp [hp])] at h
      simp only [mapSet, hp, if_false, keysOf, List.map_cons, List.cons_append]
      rw [show (List.map Prod.fst (mapSet rest k v)) = keysOf (mapSet rest k v) from rfl,
        ih h]
      rfl

theorem keysOf_mapSet_of_some {β : Type} (m : List (List Char × β)) (k : List Char)
    (v w : β) (h : mapGet m k = some w) : keysOf (mapSet m k v) = keysOf m := by
  induction m with
  | nil => simp [mapGet] at h
  | cons p rest ih =>
    by_cases hp : p.1 = k
    · simp [mapSet, hp, keysOf]
    · rw [mapGet, List.find?_cons_of_neg _ (by simp [hp])] at h
      simp only [mapSet, hp, if_false, keysOf, List.map_cons]
      rw [show (List.map Prod.fst (mapSet rest k v)) = keysOf (mapSet rest k v) from rfl,
        ih h]
      rfl

theorem nodup_keysOf_mapSet {β : Type} (m : List (List Char × β)) (k : List Char) (v : β)
    (h : (keysOf m).Nodup) : (keysOf (mapSet m k v)).Nodup := by
  cases hg : mapGet m k with
  | none =>
    rw [keysOf_mapSet_of_none m k v hg, List.nodup_append]
    exact ⟨h, List.nodup_singleton _, by
      simpa using (mapGet_eq_none_iff m k).mp hg⟩
  | some w => rw [keysOf_mapSet_of_some m k v w hg]; exact h

/-! Stable-sort lemmas. -/

theorem mem_insertLe {α : Type} (le : α → α → Bool) (x : α) :
    ∀ (l : List α) (y : α), y ∈ insertLe le x l ↔ y = x ∨ y ∈ l
  | [], y => by simp [insertLe]
  | z :: zs, y => by
    cases h : le x z with
    | true =>
      simp only [insertLe, h, if_true, List.mem_cons]
    | false =>
      simp only [insertLe, h, Bool.false_eq_true, if_false, List.mem_cons,
        mem_insertLe le x zs y]
      tauto

theorem insertLe_perm {α : Type} (le : α → α → Bool) (x : α) :
    ∀ l : List α, (insertLe le x l).Perm (x :: l)
  | [] => by simp [insertLe]
  | z :: zs => by
    cases h : le x z with
    | true => simp [insertLe, h]
    | false =>
      simp only [insertLe, h, Bool.false_eq_true, if_false]
      exact ((insertLe_perm le x zs).cons z).trans (List.Perm.swap x z zs)

theorem jsSortBy_perm {α : Type} (le : α → α → Bool) :
    ∀ l : List α, (jsSortBy le l).Perm l
  | [] => by simp [jsSortBy]
  | x :: xs =>
    (insertLe_perm le x (jsSortBy le xs)).trans ((jsSortBy_perm le xs).cons x)

theorem pairwise_insertLe {α : Type} (R : α → α → Prop) (le : α → α → Bool) (x : α) :
    ∀ l : List α, l.Pairwise R →
      (∀ y ∈ l, le x y = true → R x y) →
      (∀ y ∈ l, le x y = false → R y x) →
      (∀ y ∈ l, ∀ z ∈ l, R x y → R y z → R x z) →
      (insertLe le x l).Pairwise R
  | [], _, _, _, _ => List.pairwise_singleton R x
  | z :: zs, hp, h1, h2, htr => by
    rcases List.pairwise_cons.mp hp with ⟨hz, hzs⟩
    cases h : le x z with
    | true =>
      simp only [insertLe, h, if_true]
      refine List.pairwise_cons.mpr ⟨?_, hp⟩
      intro y hy
      rcases List.mem_cons.mp hy with rfl | hy
      · exact h1 _ (List.mem_cons_self _ _) h
      · exact htr _ (List.mem_cons_self _ _) y (List.mem_cons_of_mem _ hy)
          (h1 _ (List.mem_cons_self _ _) h) (hz y hy)
    | false =>
      simp only [insertLe, h, Bool.false_eq_true, if_false]
      refine List.pairwise_cons.mpr ⟨?_, ?_⟩
      · intro y hy
        rcases (mem_insertLe le x zs y).mp hy with rfl | hy
        · exact h2 _ (List.mem_cons_self _ _) h
        · exact hz y hy
      · exact pairwise_insertLe R le x zs hzs
          (fun y hy => h1 y (List.mem_cons_of_mem _ hy))
          (fun y hy => h2 y (List.mem_cons_of_mem _ hy))
          (fun y hy z hz2 => htr y (List.mem_cons_of_mem _ hy) z (List.mem_cons_of_mem _ hz2))

theorem pairwise_jsSortBy {α : Type} (R : α → α → Prop) (le : α → α → Bool) :
    ∀ l : List α,
      (∀ a ∈ l, ∀ b ∈ l, le a b = true → R a b) →
      (∀ a ∈ l, ∀ b ∈ l, le a b = false → R b a) →
      (∀ a ∈ l, ∀ b ∈ l, ∀ c ∈ l, R a b → R b c → R a c) →
      (jsSortBy le l).Pairwise R
  | [], _, _, _ => List.Pairwise.nil
  | x :: xs, h1, h2, htr => by
    have hmem : ∀ y ∈ jsSortBy le xs, y ∈ xs :=
      fun y hy => (jsSortBy_perm le xs).mem_iff.mp hy
    refine pairwise_insertLe R le x (jsSortBy le xs)
      (pairwise_jsSortBy R le xs
        (fun a ha b hb => h1 a (List.mem_cons_of_mem _ ha) b (List.mem_cons_of_mem _ hb))
        (fun a ha b hb => h2 a (List.mem_cons_of_mem _ ha) b (List.mem_cons_of_mem _ hb))
        (fun a ha b hb c hc => htr a (List.mem_cons_of_mem _ ha) b
          (List.mem_cons_of_mem _ hb) c (List.mem_cons_of_mem _ hc)))
      (fun y hy => h1 x (List.mem_cons_self _ _) y (List.mem_cons_of_mem _ (hmem y hy)))
      (fun y hy => h2 x (List.mem_cons_self _ _) y (List.mem_cons_of_mem _ (hmem y hy)))
      (fun y hy z hz => htr x (List.mem_cons_self _ _) y
        (List.mem_cons_of_mem _ (hmem y hy)) z (List.mem_cons_of_mem _ (hmem z hz)))

/-! Season-bucketing lemmas. -/

theorem bucketAdd_lookupD (m : List (List Char × List ContentItem)) (it : ContentItem)
    (szn : List Char) :
    lookupD (bucketAdd m it) szn
    = lookupD m szn ++ (if seasonKeyOf it = szn then [it] else []) := by
  unfold bucketAdd
  by_cases hk : seasonKeyOf it = szn
  · subst hk
    cases hg : mapGet m (seasonKeyOf it) with
    | none => simp [lookupD, hg, mapGet_mapSet_self]
    | some b => simp [lookupD, hg, mapGet_mapSet_self]
  · cases hg : mapGet m (seasonKeyOf it) with
    | none => simp [lookupD, hg, mapGet_mapSet_ne _ _ _ _ hk, hk]
    | some b => simp [lookupD, hg, mapGet_mapSet_ne _ _ _ _ hk, hk]

theorem bucketize_lookupD : ∀ (l : List ContentItem)
    (m : List (List Char × List ContentItem)) (szn : List Char),
    lookupD (bucketize m l) szn
    = lookupD m szn ++ l.filter (fun it => seasonKeyOf it == szn)
  | [], m, szn => by simp [bucketize]
  | x :: xs, m, szn => by
    rw [show bucketize m (x :: xs) = bucketize (bucketAdd m x) xs from rfl,
      bucketize_lookupD xs (bucketAdd m x) szn, bucketAdd_lookupD, List.filter_cons]
    by_cases h : seasonKeyOf x = szn
    · simp [h]
    · simp [h]

theorem bucketAdd_vals_ne_nil (m : List (List Char × List ContentItem)) (x : ContentItem)
    (hm : ∀ p ∈ m, p.2 ≠ []) : ∀ p ∈ bucketAdd m x, p.2 ≠ [] := by
  intro p hp
  unfold bucketAdd at hp
  cases hg : mapGet m (seasonKeyOf x) with
  | none =>
    rw [hg] at hp
    rcases mem_mapSet _ _ _ _ hp with hin | rfl
    · exact hm p hin
    · simp
  | some b =>
    rw [hg] at hp
    rcases mem_mapSet _ _ _ _ hp with hin | rfl
    · exact hm p hin
    · simp

theorem bucketize_vals_ne_nil : ∀ (l : List ContentItem)
    (m : List (List Char × List ContentItem)), (∀ p ∈ m, p.2 ≠ []) →
    ∀ p ∈ bucketize m l, p.2 ≠ []
  | [], _, hm => hm
  | x :: xs, m, hm =>
    bucketize_vals_ne_nil xs (bucketAdd m x) (bucketAdd_vals_ne_nil m x hm)

theorem bucketize_nodup : ∀ (l : List ContentItem)
    (m : List (List Char × List ContentItem)), (keysOf m).Nodup →
    (keysOf (bucketize m l)).Nodup
  | [], _, hm => hm
  | x :: xs, m, hm => by
    refine bucketize_nodup xs (bucketAdd m x) ?_
    unfold bucketAdd
    cases mapGet m (seasonKeyOf x) with
    | none => exact nodup_keysOf_mapSet _ _ _ hm
    | some b => exact nodup_keysOf_mapSet _ _ _ hm

theorem lookupD_mkSeasons (l : List ContentItem) (szn : List Char) :
    lookupD (mkSeasons l) szn = jsSortBy epLe (lookupD (bucketize [] l) szn) := by
  unfold mkSeasons lookupD
  rw [mapGet_map]
  cases mapGet (bucketize [] l) szn with
  | none => simp [jsSortBy]
  | some b => simp

theorem mkSeasons_entry (l : List ContentItem) (p : List Char × List ContentItem)
    (hp : p ∈ mkSeasons l) :
    p.2 = jsSortBy epLe (l.filter (fun it => seasonKeyOf it == p.1))
    ∧ l.filter (fun it => seasonKeyOf it == p.1) ≠ [] := by
  unfold mkSeasons at hp
  rcases List.mem_map.mp hp with ⟨q, hq, heq⟩
  have hget : mapGet (bucketize [] l) q.1 = some q.2 :=
    mapGet_of_mem_nodup _ _ _ (bucketize_nodup l [] (by simp [keysOf])) hq
  have hlk : lookupD (bucketize [] l) q.1 = q.2 := by
    rw [lookupD, hget]
    rfl
  have hfil : q.2 = l.filter (fun it => seasonKeyOf it == q.1) := by
    rw [← hlk, bucketize_lookupD]
    rfl
  have hne : q.2 ≠ [] := bucketize_vals_ne_nil l [] (by simp) q hq
  have h1 : p.1 = q.1 := by rw [← heq]
  have h2 : p.2 = jsSortBy epLe q.2 := by rw [← heq]
  constructor
  · rw [h2, h1, ← hfil]
  · rw [h1, ← hfil]
    exact hne

/-! Lemmas connecting groupSeriesByShow entries to their inputs. -/

theorem pass1Step_allItems (acc : List (List Char × GroupedSeries)) (x : ContentItem)
    (u : List ContentItem) (hacc : ∀ p ∈ acc, ∀ y ∈ p.2.allItems, y ∈ u) (hx : x ∈ u) :
    ∀ p ∈ pass1Step acc x, ∀ y ∈ p.2.allItems, y ∈ u := by
  intro p hp y hy
  unfold pass1Step at hp
  by_cases ht : x.type ≠ some (str "Series")
  · rw [if_pos ht] at hp
    rcases mem_mapSet _ _ _ _ hp with hin | rfl
    · exact hacc p hin y hy
    · simp only [List.mem_singleton] at hy
      rw [hy]
      exact hx
  · rw [if_neg ht] at hp
    cases hg : mapGet acc (seriesKey x) with
    | none =>
      rw [hg] at hp
      rcases mem_mapSet _ _ _ _ hp with hin | rfl
      · exact hacc p hin y hy
      · simp only [List.mem_singleton] at hy
        rw [hy]
        exact hx
    | some g =>
      rw [hg] at hp
      rcases mem_mapSet _ _ _ _ hp with hin | rfl
      · exact hacc p hin y hy
      · rcases List.mem_append.mp hy with hyold | hynew
        · exact hacc _ (mem_of_mapGet _ _ _ hg) y hyold
        · simp only [List.mem_singleton] at hynew
          rw [hynew]
          exact hx

theorem pass1_allItems : ∀ (l : List ContentItem) (acc : List (List Char × GroupedSeries))
    (u : List ContentItem), (∀ p ∈ acc, ∀ y ∈ p.2.allItems, y ∈ u) → (∀ x ∈ l, x ∈ u) →
    ∀ p ∈ pass1 acc l, ∀ y ∈ p.2.allItems, y ∈ u
  | [], _, _, hacc, _ => hacc
  | x :: xs, acc, u, hacc, hl =>
    pass1_allItems xs (pass1Step acc x) u
      (pass1Step_allItems acc x u hacc (hl x (List.mem_cons_self _ _)))
      (fun y hy => hl y (List.mem_cons_of_mem _ hy))

theorem groupSeries_entry (items : List ContentItem) (k : List Char) (g : GroupedSeries)
    (h : (k, g) ∈ groupSeriesByShow items) :
    g.seasons = mkSeasons g.allItems ∧ ∀ y ∈ g.allItems, y ∈ items := by
  unfold groupSeriesByShow at h
  rcases List.mem_map.mp h with ⟨p, hp, heq⟩
  injection heq with h1 h2
  refine ⟨by rw [← h2], fun y hy => ?_⟩
  rw [← h2] at hy
  exact pass1_allItems items [] items (by simp) (fun x hx => hx) p hp y hy

/-- C10: in every group - singleton non-series groups included - each season
bucket holds exactly the group items whose season ?? "unknown" label equals
the bucket key (as a multiset), every item appears in its own bucket, every
bucket key is realized by some item, and a group with items has a nonempty
season index. -/
theorem c10_theorem (items : List ContentItem) :
    ∀ k g, (k, g) ∈ groupSeriesByShow items →
      (∀ szn, (lookupD g.seasons szn).Perm
        (g.allItems.filter (fun it => seasonKeyOf it == szn)))
      ∧ (∀ it ∈ g.allItems, it ∈ lookupD g.seasons (seasonKeyOf it))
      ∧ (∀ p ∈ g.seasons, ∃ it ∈ g.allItems, seasonKeyOf it = p.1)
      ∧ (g.allItems ≠ [] → g.seasons ≠ []) := by
  intro k g hkg
  obtain ⟨hse, _⟩ := groupSeries_entry items k g hkg
  have hperm : ∀ szn, (lookupD g.seasons szn).Perm
      (g.allItems.filter (fun it => seasonKeyOf it == szn)) := by
    intro szn
    rw [hse, lookupD_mkSeasons, bucketize_lookupD,
      show lookupD ([] : List (List Char × List ContentItem)) szn = [] from rfl,
      List.nil_append]
    exact jsSortBy_perm _ _
  have hmem : ∀ it ∈ g.allItems, it ∈ lookupD g.seasons (seasonKeyOf it) := by
    intro it hit
    refine (hperm (seasonKeyOf it)).mem_iff.mpr ?_
    exact List.mem_filter.mpr ⟨hit, by simp⟩
  refine ⟨hperm, hmem, ?_, ?_⟩
  · intro p hp
    rw [hse] at hp
    obtain ⟨_, hne⟩ := mkSeasons_entry _ _ hp
    obtain ⟨it, hit⟩ := List.exists_mem_of_ne_nil _ hne
    exact ⟨it, (List.mem_filter.mp hit).1, by
      simpa using (List.mem_filter.mp hit).2⟩
  · intro hne hcon
    obtain ⟨it, hit⟩ := List.exists_mem_of_ne_nil _ hne
    have := hmem it hit
    rw [hcon] at this
    simp [lookupD, mapGet] at this

theorem c10_witness : c10group.seasons ≠ [] :=
  (c10_theorem c9items c10key c10group (by decide)).2.2.2 (by decide)

/-! Parsing facts for well-formed season/episode strings. -/

theorem takeWhile_of_all {p : Char → Bool} : ∀ l : List Char,
    l.all p = true → l.takeWhile p = l
  | [], _ => rfl
  | c :: cs, h => by
    simp only [List.all_cons, Bool.and_eq_true] at h
    simp [List.takeWhile_cons, h.1, takeWhile_of_all cs h.2]

theorem digit_not_space (c : Char) (h : isDigitChar c = true) : jsIsSpace c = false := by
  by_contra hb
  simp only [jsIsSpace, Bool.not_eq_false, Bool.or_eq_true, decide_eq_true_eq] at hb
  have hc : c = ' ' ∨ c = '\t' ∨ c = '\n' ∨ c = '\r' := by tauto
  rcases hc with rfl | rfl | rfl | rfl <;> exact absurd h (by decide)

theorem jsParseInt_digits (s : List Char) (hne : s ≠ []) (hall : s.all isDigitChar = true) :
    jsParseInt s = doubleOfNat (digitsToNat s) := by
  cases s with
  | nil => exact absurd rfl hne
  | cons c cs =>
    have hc : isDigitChar c = true := by
      have hh := hall
      simp only [List.all_cons, Bool.and_eq_true] at hh
      exact hh.1
    unfold jsParseInt
    rw [List.dropWhile_cons, if_neg (by simp [digit_not_space c hc])]
    have hc1 : c ≠ '-' := fun hcc => by rw [hcc] at hc; exact absurd hc (by decide)
    have hc2 : c ≠ '+' := fun hcc => by rw [hcc] at hc; exact absurd hc (by decide)
    rw [show jsParseIntCore (c :: cs)
      = if c = '-' then jsNegate (jsPosOfVal (digitsVal cs))
        else if c = '+' then jsPosOfVal (digitsVal cs)
        else jsPosOfVal (digitsVal (c :: cs)) from rfl,
      if_neg hc1, if_neg hc2]
    unfold digitsVal
    rw [takeWhile_of_all _ hall]
    simp [jsPosOfVal]

/-! The order on non-NaN JS numbers, and its agreement with the comparison
operators of the source. -/

theorem numOk_iff (a : JSNum) : numOk a = true ↔ a ≠ JSNum.nan := by
  cases a <;> simp [numOk]

theorem seOk_season {x : ContentItem} (h : seOk x = true) :
    numOk (pSE x.season) = true := by
  have hh := h
  simp only [seOk, Bool.and_eq_true] at hh
  exact hh.1

theorem seOk_episode {x : ContentItem} (h : seOk x = true) :
    numOk (pSE x.episode) = true := by
  have hh := h
  simp only [seOk, Bool.and_eq_true] at hh
  exact hh.2

theorem numLe_refl {a : JSNum} (h : numOk a = true) : numLe a a = true := by
  cases a <;> simp_all [numLe, numOk]

theorem numLe_trans {a b c : JSNum} (h1 : numLe a b = true) (h2 : numLe b c = true) :
    numLe a c = true := by
  cases a <;> cases b <;> cases c <;> simp_all [numLe] <;> omega

theorem numLe_antisymm {a b : JSNum} (h1 : numLe a b = true) (h2 : numLe b a = true) :
    a = b := by
  cases a <;> cases b <;> simp_all [numLe] <;> omega

theorem numLt_le {a b : JSNum} (h : numLt a b = true) : numLe a b = true := by
  cases a <;> cases b <;> simp_all [numLt, numLe] <;> omega

theorem numLt_trans {a b c : JSNum} (h1 : numLt a b = true) (h2 : numLt b c = true) :
    numLt a c = true := by
  cases a <;> cases b <;> cases c <;> simp_all [numLt] <;> omega

theorem numLt_asymm {a b : JSNum} (h1 : numLt a b = true) (h2 : numLt b a = true) :
    False := by
  cases a <;> cases b <;> simp_all [numLt] <;> omega

theorem numLt_irrefl (a : JSNum) : numLt a a = false := by
  cases a <;> simp [numLt]

theorem numLe_of_not_lt {a b : JSNum} (ha : numOk a = true) (hb : numOk b = true)
    (h : numLt a b = false) : numLe b a = true := by
  cases a <;> cases b <;> simp_all [numLt, numLe, numOk] <;> omega

theorem num_eq_of_not_lt {a b : JSNum} (ha : numOk a = true) (hb : numOk b = true)
    (h1 : numLt a b = false) (h2 : numLt b a = false) : a = b := by
  cases a <;> cases b <;> simp_all [numLt, numOk] <;> omega

theorem jsGT_iff {a b : JSNum} (ha : numOk a = true) (hb : numOk b = true) :
    jsGT a b = true ↔ numLt b a = true := by
  cases a <;> cases b <;> simp_all [jsGT, numLt, numOk]

theorem jsEQnum_iff {a b : JSNum} (ha : numOk a = true) (hb : numOk b = true) :
    jsEQnum a b = true ↔ a = b := by
  cases a <;> cases b <;> simp_all [jsEQnum, numOk]

theorem jsDescLe_true_iff {x y : JSNum} (hx : numOk x = true) (hy : numOk y = true) :
    jsDescLe x y = true ↔ numLe y x = true := by
  cases x <;> cases y <;> simp_all [jsDescLe, numLe, numOk]

theorem jsDescLe_false {x y : JSNum} (h : jsDescLe x y = false) : numLe x y = true := by
  cases x <;> cases y <;> simp_all [jsDescLe, numLe] <;> omega

theorem seasonKeyNum_ok (s : List Char) : numOk (seasonKeyNum s) = true := by
  unfold seasonKeyNum
  cases jsParseInt s <;> rfl

/-- C9: within every group each season bucket carries only items with that
season ?? "unknown" label and every item lands in its own bucket; when all
episode fields parse to numbers through parseInt(episode || "0") - null,
digit strings of any length, and renderings such as "1e+23" all do, only
fields without a digit prefix are excluded - each bucket is sorted
descending by the parsed double value; and getSortedSeasons returns exactly
the buckets, sorted descending by parseInt(season) || 0 (NaN, hence every
non-numeric label such as "unknown", collapsing to 0). -/
theorem c9_theorem (items : List ContentItem)
    (hwf : ∀ x ∈ items, numOk (pSE x.episode) = true) :
    ∀ k g, (k, g) ∈ groupSeriesByShow items →
      (∀ p ∈ g.seasons, ∀ it ∈ p.2, seasonKeyOf it = p.1)
      ∧ (∀ it ∈ g.allItems, it ∈ lookupD g.seasons (seasonKeyOf it))
      ∧ (∀ p ∈ g.seasons, p.2.Pairwise
          (fun a b => numLe (pSE b.episode) (pSE a.episode) = true))
      ∧ (getSortedSeasons g).Perm g.seasons
      ∧ (getSortedSeasons g).Pairwise
          (fun a b => numLe (seasonKeyNum b.1) (seasonKeyNum a.1) = true) := by
  intro k g hkg
  obtain ⟨hse, hsub⟩ := groupSeries_entry items k g hkg
  have hperm : ∀ szn, (lookupD g.seasons szn).Perm
      (g.allItems.filter (fun it => seasonKeyOf it == szn)) := by
    intro szn
    rw [hse, lookupD_mkSeasons, bucketize_lookupD,
      show lookupD ([] : List (List Char × List ContentItem)) szn = [] from rfl,
      List.nil_append]
    exact jsSortBy_perm _ _
  refine ⟨?_, ?_, ?_, jsSortBy_perm _ _, ?_⟩
  · intro p hp it hit
    rw [hse] at hp
    obtain ⟨hsort, _⟩ := mkSeasons_entry _ _ hp
    rw [hsort] at hit
    have hmem := (jsSortBy_perm epLe _).mem_iff.mp hit
    simpa using (List.mem_filter.mp hmem).2
  · intro it hit
    refine (hperm (seasonKeyOf it)).mem_iff.mpr ?_
    exact List.mem_filter.mpr ⟨hit, by simp⟩
  · intro p hp
    rw [hse] at hp
    obtain ⟨hsort, _⟩ := mkSeasons_entry _ _ hp
    rw [hsort]
    have hl : ∀ y ∈ g.allItems.filter (fun it => seasonKeyOf it == p.1),
        numOk (pSE y.episode) = true :=
      fun y hy => hwf y (hsub y (List.mem_filter.mp hy).1)
    refine pairwise_jsSortBy _ epLe _ ?_ ?_ ?_
    · intro a ha b hb hle
      exact (jsDescLe_true_iff (hl a ha) (hl b hb)).mp hle
    · intro a _ b _ hle
      exact jsDescLe_false hle
    · intro a _ b _ c _ h1 h2
      exact numLe_trans h2 h1
  · refine pairwise_jsSortBy _ seasonEntryLe _ ?_ ?_ ?_
    · intro a _ b _ hle
      exact (jsDescLe_true_iff (seasonKeyNum_ok a.1) (seasonKeyNum_ok b.1)).mp hle
    · intro a _ b _ hle
      exact jsDescLe_false hle
    · intro a _ b _ c _ h1 h2
      exact numLe_trans h2 h1

theorem c9_witness :
    (getSortedSeasons c9group).Pairwise
      (fun a b => numLe (seasonKeyNum b.1) (seasonKeyNum a.1) = true) :=
  (c9_theorem c9items (by decide) c9key c9group (by decide)).2.2.2.2

/-! Representative selection (claim C3). -/

theorem better_iff (n c : ContentItem) (hn : seOk n = true) (hc : seOk c = true) :
    (better n c = true) ↔ pairLt c n := by
  have hn1 := seOk_season hn
  have hn2 := seOk_episode hn
  have hc1 := seOk_season hc
  have hc2 := seOk_episode hc
  unfold better pairLt
  rw [Bool.or_eq_true, Bool.and_eq_true, jsGT_iff hn1 hc1, jsGT_iff hn2 hc2,
    jsEQnum_iff hn1 hc1]
  constructor
  · rintro (h | ⟨heq, h⟩)
    · exact Or.inl h
    · exact Or.inr ⟨heq.symm, h⟩
  · rintro (h | ⟨heq, h⟩)
    · exact Or.inl h
    · exact Or.inr ⟨heq.symm, h⟩

theorem pairLe_rfl (a : ContentItem) (h : seOk a = true) : pairLe a a :=
  Or.inr ⟨rfl, numLe_refl (seOk_episode h)⟩

theorem pairLe_trans {a b c : ContentItem} (h1 : pairLe a b) (h2 : pairLe b c) :
    pairLe a c := by
  rcases h1 with h1 | ⟨e1, l1⟩
  · rcases h2 with h2 | ⟨e2, l2⟩
    · exact Or.inl (numLt_trans h1 h2)
    · rw [e2] at h1
      exact Or.inl h1
  · rcases h2 with h2 | ⟨e2, l2⟩
    · rw [← e1] at h2
      exact Or.inl h2
    · exact Or.inr ⟨e1.trans e2, numLe_trans l1 l2⟩

theorem pairLt_pairLe {a b : ContentItem} (h : pairLt a b) : pairLe a b := by
  rcases h with h | ⟨e, l⟩
  · exact Or.inl h
  · exact Or.inr ⟨e, numLt_le l⟩

theorem pairLe_of_not_lt {a b : ContentItem} (ha : seOk a = true) (hb : seOk b = true)
    (h : ¬ pairLt a b) : pairLe b a := by
  have ha1 := seOk_season ha
  have ha2 := seOk_episode ha
  have hb1 := seOk_season hb
  have hb2 := seOk_episode hb
  by_cases hss : numLt (pSE a.season) (pSE b.season) = true
  · exact absurd (Or.inl hss) h
  · have hss2 : numLt (pSE a.season) (pSE b.season) = false := Bool.eq_false_iff.mpr hss
    by_cases hts : numLt (pSE b.season) (pSE a.season) = true
    · exact Or.inl hts
    · have hts2 : numLt (pSE b.season) (pSE a.season) = false := Bool.eq_false_iff.mpr hts
      have heq : pSE a.season = pSE b.season := num_eq_of_not_lt ha1 hb1 hss2 hts2
      by_cases hee : numLt (pSE a.episode) (pSE b.episode) = true
      · exact absurd (Or.inr ⟨heq, hee⟩) h
      · have hee2 : numLt (pSE a.episode) (pSE b.episode) = false :=
          Bool.eq_false_iff.mpr hee
        exact Or.inr ⟨heq.symm, numLe_of_not_lt ha2 hb2 hee2⟩

theorem pairEq_of_le_le {a b : ContentItem} (h1 : pairLe a b) (h2 : pairLe b a) :
    pairEq a b := by
  rcases h1 with h1 | ⟨e1, l1⟩
  · rcases h2 with h2 | ⟨e2, l2⟩
    · exact absurd h2 (fun hh => numLt_asymm h1 hh)
    · rw [e2, numLt_irrefl] at h1
      simp at h1
  · rcases h2 with h2 | ⟨e2, l2⟩
    · rw [e1, numLt_irrefl] at h2
      simp at h2
    · exact ⟨e1, numLe_antisymm l1 l2⟩

theorem repFold_mem : ∀ (xs : List ContentItem) (r : ContentItem),
    repFold r xs ∈ r :: xs
  | [], r => List.mem_cons_self _ _
  | x :: xs, r => by
    rw [repFold]
    by_cases hb : better x r = true
    · rw [if_pos hb]
      exact List.mem_cons_of_mem _ (repFold_mem xs x)
    · rw [if_neg hb]
      rcases List.mem_cons.mp (repFold_mem xs r) with h | h
      · rw [h]
        exact List.mem_cons_self _ _
      · exact List.mem_cons_of_mem _ (List.mem_cons_of_mem _ h)

theorem repFold_max : ∀ (xs : List ContentItem) (r : ContentItem),
    (∀ y ∈ r :: xs, seOk y = true) → ∀ y ∈ r :: xs, pairLe y (repFold r xs)
  | [], r, hwf, y, hy => by
    rw [List.mem_singleton] at hy
    rw [hy, repFold]
    exact pairLe_rfl r (hwf r (List.mem_cons_self _ _))
  | x :: xs, r, hwf, y, hy => by
    rw [repFold]
    have hwfr : seOk r = true := hwf r (List.mem_cons_self _ _)
    have hwfx : seOk x = true := hwf x (List.mem_cons_of_mem _ (List.mem_cons_self _ _))
    have hwf2 : ∀ z ∈ (if better x r then x else r) :: xs, seOk z = true := by
      intro z hz
      rcases List.mem_cons.mp hz with hzz | hz2
      · rw [hzz]
        by_cases hb : better x r = true
        · rw [if_pos hb]; exact hwfx
        · rw [if_neg hb]; exact hwfr
      · exact hwf z (List.mem_cons_of_mem _ (List.mem_cons_of_mem _ hz2))
    have hmax := repFold_max xs (if better x r then x else r) hwf2
    have hhead : pairLe (if better x r then x else r)
        (repFold (if better x r then x else r) xs) :=
      hmax _ (List.mem_cons_self _ _)
    have hxle : pairLe x (repFold (if better x r then x else r) xs) := by
      by_cases hb : better x r = true
      · rw [if_pos hb] at hhead ⊢
        exact hhead
      · have hnlt : ¬ pairLt r x := fun hlt => by
          have hbt := (better_iff x r hwfx hwfr).mpr hlt
          exact hb hbt
        rw [if_neg hb] at hhead ⊢
        exact pairLe_trans (pairLe_of_not_lt hwfr hwfx hnlt) hhead
    have hrle : pairLe r (repFold (if better x r then x else r) xs) := by
      by_cases hb : better x r = true
      · have hlt : pairLt r x := (better_iff x r hwfx hwfr).mp hb
        rw [if_pos hb] at hhead ⊢
        exact pairLe_trans (pairLt_pairLe hlt) hhead
      · rw [if_neg hb] at hhead ⊢
        exact hhead
    rcases List.mem_cons.mp hy with hyy | hy2
    · rw [hyy]
      exact hrle
    · rcases List.mem_cons.mp hy2 with hyy | hy3
      · rw [hyy]
        exact hxle
      · exact hmax y (List.mem_cons_of_mem _ hy3)

theorem pass1_single : ∀ (xs : List ContentItem) (k : List Char) (r : ContentItem)
    (its : List ContentItem),
    (∀ x ∈ xs, x.type = some (str "Series") ∧ seriesKey x = k) →
    pass1 [(k, ⟨r, its, []⟩)] xs = [(k, ⟨repFold r xs, its ++ xs, []⟩)]
  | [], k, r, its, _ => by simp [pass1, repFold]
  | x :: xs, k, r, its, hx => by
    have hx0 := hx x (List.mem_cons_self _ _)
    rw [show pass1 [(k, (⟨r, its, []⟩ : GroupedSeries))] (x :: xs)
      = pass1 (pass1Step [(k, ⟨r, its, []⟩)] x) xs from rfl]
    have hstep : pass1Step [(k, (⟨r, its, []⟩ : GroupedSeries))] x
        = [(k, ⟨if better x r then x else r, its ++ [x], []⟩)] := by
      unfold pass1Step
      rw [if_neg (by simp [hx0.1]), hx0.2]
      rw [show mapGet [(k, (⟨r, its, []⟩ : GroupedSeries))] k = some ⟨r, its, []⟩ from by
        rw [mapGet, List.find?_cons_of_pos _ (by simp)]
        rfl]
      simp [mapSet]
    rw [hstep,
      pass1_single xs k (if better x r then x else r) (its ++ [x])
        (fun z hz => hx z (List.mem_cons_of_mem _ hz)),
      repFold]
    simp

theorem groupSeries_single (l : List ContentItem) (k : List Char)
    (hser : ∀ x ∈ l, x.type = some (str "Series")) (hkey : ∀ x ∈ l, seriesKey x = k)
    (x0 : ContentItem) (rest : List ContentItem) (hl : l = x0 :: rest) :
    mapGet (groupSeriesByShow l) k = some ⟨repFold x0 rest, l, mkSeasons l⟩ := by
  subst hl
  unfold groupSeriesByShow
  rw [show pass1 [] (x0 :: rest) = pass1 (pass1Step [] x0) rest from rfl]
  have hstep : pass1Step [] x0 = [(k, ⟨x0, [x0], []⟩)] := by
    unfold pass1Step
    rw [if_neg (by simp [hser x0 (List.mem_cons_self _ _)]),
      hkey x0 (List.mem_cons_self _ _)]
    rfl
  rw [hstep,
    pass1_single rest k x0 [x0]
      (fun z hz => ⟨hser z (List.mem_cons_of_mem _ hz), hkey z (List.mem_cons_of_mem _ hz)⟩)]
  rw [List.map_cons, List.map_nil, mapGet, List.find?_cons_of_pos _ (by simp)]
  simp

/-- C3 amended: for a nonempty list of series items sharing one grouping
key whose season and episode fields all parse to numbers (digit strings of
any length included - parseInt rounds them to doubles, collapsing from 16
significant digits on), the group representative is an item of the list
attaining the maximum parsed (season, episode) double pair under
lexicographic comparison (null parsed as 0); for any reordering of the list
the representative has the same parsed pair, and when exactly one item
attains the maximum the representative is that item regardless of input
order.  With ties in double space - equal pairs, or distinct huge digit
strings rounding to one double - the representative itself is
order-dependent (see the counterexample). -/
theorem c3_theorem (l lp : List ContentItem) (k : List Char)
    (hne : l ≠ [])
    (hperm : l.Perm lp)
    (hser : ∀ x ∈ l, x.type = some (str "Series"))
    (hkey : ∀ x ∈ l, seriesKey x = k)
    (hwf : ∀ x ∈ l, seOk x = true) :
    ∃ g gp, mapGet (groupSeriesByShow l) k = some g
      ∧ mapGet (groupSeriesByShow lp) k = some gp
      ∧ g.representative ∈ l
      ∧ (∀ x ∈ l, pairLe x g.representative)
      ∧ pairEq gp.representative g.representative
      ∧ ((∀ x ∈ l, pairEq x g.representative → x = g.representative) →
          gp.representative = g.representative) := by
  obtain ⟨x0, rest, hl⟩ := List.exists_cons_of_ne_nil hne
  have hnep : lp ≠ [] := fun h => hne (List.Perm.eq_nil (h ▸ hperm))
  obtain ⟨y0, restp, hlp⟩ := List.exists_cons_of_ne_nil hnep
  have hmemp : ∀ x, x ∈ lp ↔ x ∈ l := fun x => (hperm.mem_iff).symm
  have hserp : ∀ x ∈ lp, x.type = some (str "Series") :=
    fun x hx => hser x ((hmemp x).mp hx)
  have hkeyp : ∀ x ∈ lp, seriesKey x = k := fun x hx => hkey x ((hmemp x).mp hx)
  have hwfp : ∀ x ∈ lp, seOk x = true := fun x hx => hwf x ((hmemp x).mp hx)
  have hg := groupSeries_single l k hser hkey x0 rest hl
  have hgp := groupSeries_single lp k hserp hkeyp y0 restp hlp
  have hwfl : ∀ y ∈ x0 :: rest, seOk y = true := hl ▸ hwf
  have hwflp : ∀ y ∈ y0 :: restp, seOk y = true := hlp ▸ hwfp
  have hrepmem : repFold x0 rest ∈ l := hl ▸ repFold_mem rest x0
  have hrepmemp : repFold y0 restp ∈ lp := hlp ▸ repFold_mem restp y0
  have hmax : ∀ x ∈ l, pairLe x (repFold x0 rest) := hl ▸ repFold_max rest x0 hwfl
  have hmaxp : ∀ x ∈ lp, pairLe x (repFold y0 restp) := hlp ▸ repFold_max restp y0 hwflp
  have hle1 : pairLe (repFold y0 restp) (repFold x0 rest) :=
    hmax (repFold y0 restp) ((hmemp _).mp hrepmemp)
  have hle2 : pairLe (repFold x0 rest) (repFold y0 restp) :=
    hmaxp (repFold x0 rest) ((hmemp _).mpr hrepmem)
  exact ⟨⟨repFold x0 rest, l, mkSeasons l⟩, ⟨repFold y0 restp, lp, mkSeasons lp⟩,
    hg, hgp, hrepmem, hmax, pairEq_of_le_le hle1 hle2,
    fun huniq => huniq (repFold y0 restp) ((hmemp _).mp hrepmemp)
      (pairEq_of_le_le hle1 hle2)⟩

theorem c3_witness :
    ∃ g gp, mapGet (groupSeriesByShow [e11, e15, e21]) (seriesKey e11) = some g
      ∧ mapGet (groupSeriesByShow [e21, e11, e15]) (seriesKey e11) = some gp
      ∧ g.representative ∈ [e11, e15, e21]
      ∧ (∀ x ∈ [e11, e15, e21], pairLe x g.representative)
      ∧ pairEq gp.representative g.representative
      ∧ ((∀ x ∈ [e11, e15, e21], pairEq x g.representative → x = g.representative) →
          gp.representative = g.representative) :=
  c3_theorem [e11, e15, e21] [e21, e11, e15] (seriesKey e11) (by decide) (by decide)
    (by decide) (by decide) (by decide)

end Kedi
